import Mathlib

/-!
Verification of the tool-calling agent: a shallow embedding of the
orchestration loop (src/agent/orchestrator.py, src/agent/conversation.py),
the message data model (src/llm/models.py), the local tool catalog
(src/tools/base.py, src/tools/registry.py) and the MCP RPC client
(src/mcp/client.py, src/mcp/protocol.py).

Python JSON values are modelled by the inductive `Json` below; numbers are
modelled as integers (the protocol envelopes at issue carry integer ids and
the argument schemas at issue use shallow type tags only).  `json.dumps`
(ensure_ascii=False) and `json.loads` of the standard library are modelled
by `renderChars`/`jsonLoads` below and the round-trip between them is
proved, not assumed.
-/

set_option maxHeartbeats 1000000

/-- A JSON value as produced by Python's `json.loads`: `null`, booleans,
numbers (restricted to integers here), strings, arrays and objects.
Objects keep their fields in insertion order, as Python dicts do. -/
inductive Json where
  | null
  | bool (b : Bool)
  | num (n : Int)
  | str (s : String)
  | arr (xs : List Json)
  | obj (kvs : List (String × Json))

/-- Python `dict.get(key)` on a string-keyed dict: the value of the first
(and, for a dict, only) binding of `key`, if any. -/
def dictGet {α : Type} : List (String × α) → String → Option α
  | [], _ => none
  | (k, v) :: rest, key => if k = key then some v else dictGet rest key

/-- Python `d[key] = value` on a string-keyed dict: replace the binding if
the key is present, append it otherwise. -/
def dictSet {α : Type} : List (String × α) → String → α → List (String × α)
  | [], key, v => [(key, v)]
  | (k, w) :: rest, key, v =>
      if k = key then (k, v) :: rest else (k, w) :: dictSet rest key v

/-- Python `del d[key]` (total version: removes the binding when present). -/
def dictDel {α : Type} (d : List (String × α)) (key : String) : List (String × α) :=
  d.filter (fun kv => kv.1 ≠ key)

/-- Python truthiness of a parsed JSON value (`if x:`). -/
def pyTruthy : Json → Bool
  | .null => false
  | .bool b => b
  | .num n => n ≠ 0
  | .str s => s ≠ ""
  | .arr xs => !xs.isEmpty
  | .obj kvs => !kvs.isEmpty

/-- The whitespace characters Python's `str.strip()` removes (the ASCII
ones; `\x0b` and `\x0c` included). -/
def isPyWs (c : Char) : Bool :=
  c = ' ' || c = '\t' || c = '\n' || c = '\r' || c = Char.ofNat 11 || c = Char.ofNat 12

/-- Python `str.strip()`. -/
def pyStrip (s : String) : String :=
  ⟨((s.data.dropWhile isPyWs).reverse.dropWhile isPyWs).reverse⟩

/-- Hex digit characters as emitted by `json.dumps` in `\uXXXX` escapes
(lowercase). -/
def hexDigit (n : Nat) : Char :=
  if n < 10 then Char.ofNat (48 + n) else Char.ofNat (87 + n)

/-- How `json.dumps(..., ensure_ascii=False)` writes one character of a
string: `"` and `\` get a backslash escape, the control characters with
short escapes use them, the remaining control characters become `\u00XX`,
everything else is written as itself. -/
def escapeChar (c : Char) : List Char :=
  if c = '\"' then ['\\', '\"']
  else if c = '\\' then ['\\', '\\']
  else if c = '\n' then ['\\', 'n']
  else if c = '\t' then ['\\', 't']
  else if c = '\r' then ['\\', 'r']
  else if c = Char.ofNat 8 then ['\\', 'b']
  else if c = Char.ofNat 12 then ['\\', 'f']
  else if c.toNat < 32 then
    ['\\', 'u', '0', '0', hexDigit (c.toNat / 16), hexDigit (c.toNat % 16)]
  else [c]

/-- Escape a whole string, character by character. -/
def escapeList : List Char → List Char
  | [] => []
  | c :: cs => escapeChar c ++ escapeList cs

/-- The keyword `null` as characters. -/
def nullChars : List Char := ['n', 'u', 'l', 'l']

/-- The keyword `true` as characters. -/
def trueChars : List Char := ['t', 'r', 'u', 'e']

/-- The keyword `false` as characters. -/
def falseChars : List Char := ['f', 'a', 'l', 's', 'e']

/-- The decimal digits of a natural number, most significant first. -/
def natDigs (n : Nat) : List Char :=
  if h : n < 10 then [Char.ofNat (48 + n)]
  else natDigs (n / 10) ++ [Char.ofNat (48 + n % 10)]
decreasing_by exact Nat.div_lt_self (by omega) (by omega)

/-- The decimal rendering of an integer, as Python writes an `int`. -/
def intChars (n : Int) : List Char :=
  if n < 0 then '-' :: natDigs (-n).toNat else natDigs n.toNat

mutual

/-- `json.dumps(v, ensure_ascii=False)` with the default separators
`", "` and `": "`, producing the character list of the compact one-line
rendering. -/
def renderChars : Json → List Char
  | .null => nullChars
  | .bool true => trueChars
  | .bool false => falseChars
  | .num n => intChars n
  | .str s => '\"' :: escapeList s.data ++ ['\"']
  | .arr [] => ['[', ']']
  | .arr (x :: xs) => '[' :: (renderChars x ++ renderSepElems xs) ++ [']']
  | .obj [] => ['\x7b', '\x7d']
  | .obj (kv :: kvs) =>
      '\x7b' :: (renderMember kv ++ renderSepMembers kvs) ++ ['\x7d']

/-- The remaining elements of an array, each preceded by `", "`. -/
def renderSepElems : List Json → List Char
  | [] => []
  | x :: xs => ',' :: ' ' :: renderChars x ++ renderSepElems xs

/-- One object member: quoted key, `": "`, value. -/
def renderMember : String × Json → List Char
  | (k, v) => '\"' :: escapeList k.data ++ ['\"', ':', ' '] ++ renderChars v

/-- The remaining members of an object, each preceded by `", "`. -/
def renderSepMembers : List (String × Json) → List Char
  | [] => []
  | kv :: kvs => ',' :: ' ' :: renderMember kv ++ renderSepMembers kvs

end

/-- `json.dumps(v, ensure_ascii=False)` as a string. -/
def dumps (j : Json) : String := ⟨renderChars j⟩

mutual

/-- `json.dumps(v, ensure_ascii=False, indent=2)` (separators `","` /
`": "`): the pretty rendering used when a tool result is stored into the
conversation.  `lvl` is the current indentation level. -/
def renderIndent (lvl : Nat) : Json → List Char
  | .null => nullChars
  | .bool true => trueChars
  | .bool false => falseChars
  | .num n => intChars n
  | .str s => '\"' :: escapeList s.data ++ ['\"']
  | .arr [] => ['[', ']']
  | .arr (x :: xs) =>
      '[' :: '\n' :: List.replicate (2 * (lvl + 1)) ' '
        ++ renderIndent (lvl + 1) x ++ renderIndentSepElems (lvl + 1) xs
        ++ '\n' :: List.replicate (2 * lvl) ' ' ++ [']']
  | .obj [] => ['\x7b', '\x7d']
  | .obj (kv :: kvs) =>
      '\x7b' :: '\n' :: List.replicate (2 * (lvl + 1)) ' '
        ++ renderIndentMember (lvl + 1) kv ++ renderIndentSepMembers (lvl + 1) kvs
        ++ '\n' :: List.replicate (2 * lvl) ' ' ++ ['\x7d']

/-- Remaining array elements of the indented rendering. -/
def renderIndentSepElems (lvl : Nat) : List Json → List Char
  | [] => []
  | x :: xs =>
      ',' :: '\n' :: List.replicate (2 * lvl) ' '
        ++ renderIndent lvl x ++ renderIndentSepElems lvl xs

/-- One object member of the indented rendering. -/
def renderIndentMember (lvl : Nat) : String × Json → List Char
  | (k, v) => '\"' :: escapeList k.data ++ ['\"', ':', ' '] ++ renderIndent lvl v

/-- Remaining object members of the indented rendering. -/
def renderIndentSepMembers (lvl : Nat) : List (String × Json) → List Char
  | [] => []
  | kv :: kvs =>
      ',' :: '\n' :: List.replicate (2 * lvl) ' '
        ++ renderIndentMember lvl kv ++ renderIndentSepMembers lvl kvs

end

/-- `json.dumps(v, ensure_ascii=False, indent=2)` as a string. -/
def dumpsIndent2 (j : Json) : String := ⟨renderIndent 0 j⟩

/-! JSON parsing, modelling `json.loads`. -/

/-- The whitespace `json.loads` skips between tokens. -/
def isWsChar (c : Char) : Bool :=
  c = ' ' || c = '\t' || c = '\n' || c = '\r'

/-- Skip inter-token whitespace. -/
def skipWs : List Char → List Char
  | [] => []
  | c :: r => if isWsChar c then skipWs r else c :: r

/-- The value of a hex digit, if the character is one. -/
def hexVal (c : Char) : Option Nat :=
  if '0' ≤ c ∧ c ≤ '9' then some (c.toNat - 48)
  else if 'a' ≤ c ∧ c ≤ 'f' then some (c.toNat - 87)
  else if 'A' ≤ c ∧ c ≤ 'F' then some (c.toNat - 55)
  else none

/-- Parse the body of a JSON string (the opening quote already consumed):
returns the decoded characters and the input after the closing quote.
Raw control characters are rejected, as `json.loads` does in strict mode. -/
def parseStrChars : List Char → Option (List Char × List Char)
  | [] => none
  | c :: r =>
    if c = '\"' then some ([], r)
    else if c = '\\' then
      match r with
      | [] => none
      | e :: r2 =>
        if e = '\"' then (fun p => ('\"' :: p.1, p.2)) <$> parseStrChars r2
        else if e = '\\' then (fun p => ('\\' :: p.1, p.2)) <$> parseStrChars r2
        else if e = '/' then (fun p => ('/' :: p.1, p.2)) <$> parseStrChars r2
        else if e = 'n' then (fun p => ('\n' :: p.1, p.2)) <$> parseStrChars r2
        else if e = 't' then (fun p => ('\t' :: p.1, p.2)) <$> parseStrChars r2
        else if e = 'r' then (fun p => ('\r' :: p.1, p.2)) <$> parseStrChars r2
        else if e = 'b' then (fun p => (Char.ofNat 8 :: p.1, p.2)) <$> parseStrChars r2
        else if e = 'f' then (fun p => (Char.ofNat 12 :: p.1, p.2)) <$> parseStrChars r2
        else if e = 'u' then
          match r2 with
          | h1 :: h2 :: h3 :: h4 :: r3 =>
            match hexVal h1, hexVal h2, hexVal h3, hexVal h4 with
            | some a, some b, some c3, some d =>
                (fun p => (Char.ofNat (a * 4096 + b * 256 + c3 * 16 + d) :: p.1, p.2))
                  <$> parseStrChars r3
            | _, _, _, _ => none
          | _ => none
        else none
    else if c.toNat < 32 then none
    else (fun p => (c :: p.1, p.2)) <$> parseStrChars r

/-- Is `c` a decimal digit? -/
def isDigitChar (c : Char) : Bool := '0' ≤ c && c ≤ '9'

/-- Greedily read decimal digits, accumulating their value onto `acc`. -/
def parseDigits : List Char → Nat → Nat × List Char
  | [], acc => (acc, [])
  | c :: r, acc =>
      if isDigitChar c then parseDigits r (acc * 10 + (c.toNat - 48))
      else (acc, c :: r)

mutual

/-- Parse one JSON value (fuel-bounded recursion; the fuel only needs to
dominate the size of the value being read). -/
def parseVal : Nat → List Char → Option (Json × List Char)
  | 0, _ => none
  | fuel + 1, s =>
    match skipWs s with
    | [] => none
    | c :: r =>
      if c = 'n' then
        match r with
        | 'u' :: 'l' :: 'l' :: r2 => some (.null, r2)
        | _ => none
      else if c = 't' then
        match r with
        | 'r' :: 'u' :: 'e' :: r2 => some (.bool true, r2)
        | _ => none
      else if c = 'f' then
        match r with
        | 'a' :: 'l' :: 's' :: 'e' :: r2 => some (.bool false, r2)
        | _ => none
      else if c = '\"' then
        match parseStrChars r with
        | some (cs, r2) => some (.str ⟨cs⟩, r2)
        | none => none
      else if c = '[' then
        match skipWs r with
        | ']' :: r2 => some (.arr [], r2)
        | _ =>
          match parseElems fuel r with
          | some (xs, r2) => some (.arr xs, r2)
          | none => none
      else if c = '\x7b' then
        match skipWs r with
        | '\x7d' :: r2 => some (.obj [], r2)
        | _ =>
          match parseMembers fuel r with
          | some (kvs, r2) => some (.obj kvs, r2)
          | none => none
      else if c = '-' then
        match r with
        | c2 :: r2 =>
          if isDigitChar c2 then
            let p := parseDigits r2 (c2.toNat - 48)
            some (.num (-(p.1 : Int)), p.2)
          else none
        | [] => none
      else if isDigitChar c then
        let p := parseDigits r (c.toNat - 48)
        some (.num (p.1 : Int), p.2)
      else none

/-- Parse the comma-separated elements of a non-empty array, up to and
including the closing bracket. -/
def parseElems : Nat → List Char → Option (List Json × List Char)
  | 0, _ => none
  | fuel + 1, s =>
    match parseVal fuel s with
    | none => none
    | some (v, r) =>
      match skipWs r with
      | ',' :: r2 =>
        match parseElems fuel r2 with
        | some (vs, r3) => some (v :: vs, r3)
        | none => none
      | ']' :: r2 => some ([v], r2)
      | _ => none

/-- Parse the members of a non-empty object, up to and including the
closing brace. -/
def parseMembers : Nat → List Char → Option (List (String × Json) × List Char)
  | 0, _ => none
  | fuel + 1, s =>
    match skipWs s with
    | '\"' :: r =>
      match parseStrChars r with
      | none => none
      | some (kcs, r1) =>
        match skipWs r1 with
        | ':' :: r2 =>
          match parseVal fuel r2 with
          | none => none
          | some (v, r3) =>
            match skipWs r3 with
            | ',' :: r4 =>
              match parseMembers fuel r4 with
              | some (kvs, r5) => some ((⟨kcs⟩, v) :: kvs, r5)
              | none => none
            | '\x7d' :: r4 => some ([(⟨kcs⟩, v)], r4)
            | _ => none
        | _ => none
    | _ => none

end

/-- `json.loads`: parse a whole document, allowing surrounding
whitespace, rejecting trailing garbage. -/
def jsonLoads (s : String) : Option Json :=
  match parseVal (s.data.length + 1) s.data with
  | some (j, rest) => if skipWs rest = [] then some j else none
  | none => none

/-! Embedding of src/llm/models.py. -/

/-- `FunctionCall` of src/llm/models.py: the function name and the raw
JSON text of its arguments. -/
structure FunctionCall where
  name : String
  arguments : String

/-- `ToolCall` of src/llm/models.py (the constant `type="function"`
discriminator is omitted; it never varies). -/
structure ToolCall where
  id : String
  function : FunctionCall

/-- `Message` of src/llm/models.py.  All optional fields default to
`None`. -/
structure Message where
  role : String
  content : Option String := none
  tool_calls : Option (List ToolCall) := none
  tool_call_id : Option String := none
  name : Option String := none

/-- A value of the wire projection built by `get_messages_for_llm`:
either a plain string or a serialized tool-call list. -/
inductive WireVal where
  | vs (s : String)
  | vcalls (l : List ToolCall)

/-- The conditional insertion `if msg.field: msg_dict[key] = msg.field`
for a string-valued optional field: emitted only when the value is truthy
(neither `None` nor the empty string). -/
def strFieldEntry (key : String) : Option String → List (String × WireVal)
  | some s => if s = "" then [] else [(key, WireVal.vs s)]
  | none => []

/-- The conditional insertion for the `tool_calls` field: emitted only
when the list is truthy (neither `None` nor empty). -/
def callsFieldEntry : Option (List ToolCall) → List (String × WireVal)
  | some (t :: ts) => [("tool_calls", WireVal.vcalls (t :: ts))]
  | _ => []

/-- The wire record of one message, as built inside
`ConversationHistory.get_messages_for_llm`: `role` always, each optional
field only when its value is truthy (so `None`, the empty string and the
empty list are all omitted). -/
def projectMessage (m : Message) : List (String × WireVal) :=
  [("role", WireVal.vs m.role)]
    ++ strFieldEntry "content" m.content
    ++ callsFieldEntry m.tool_calls
    ++ strFieldEntry "tool_call_id" m.tool_call_id
    ++ strFieldEntry "name" m.name

/-- `ConversationHistory.get_messages_for_llm`: the wire projection of the
whole history, in insertion order. -/
def get_messages_for_llm (msgs : List Message) : List (List (String × WireVal)) :=
  msgs.map projectMessage

/-! Embedding of src/agent/conversation.py.  The history is the
`messages` list of the manager's `ConversationHistory`; each `add_*`
method is an append. -/

/-- `ConversationManager.add_user_message`. -/
def add_user_message (hist : List Message) (content : String) : List Message :=
  hist ++ [{ role := "user", content := some content }]

/-- The truthiness filter `add_assistant_message` applies to its
`tool_calls` argument: `None` and the empty list are both stored as
`None`. -/
def pyToolCalls : Option (List ToolCall) → Option (List ToolCall)
  | some (t :: ts) => some (t :: ts)
  | _ => none

/-- `ConversationManager.add_assistant_message` (the dict→`ToolCall`
conversion it performs is the identity in this typed model). -/
def add_assistant_message (hist : List Message) (content : Option String)
    (tool_calls : Option (List ToolCall)) : List Message :=
  hist ++ [{ role := "assistant", content := content,
             tool_calls := pyToolCalls tool_calls }]

/-- The string stored for a tool result: dicts and lists are serialized
with `json.dumps(..., ensure_ascii=False, indent=2)`, everything else goes
through Python `str()`. -/
def toolContentString : Json → String
  | .obj kvs => dumpsIndent2 (.obj kvs)
  | .arr xs => dumpsIndent2 (.arr xs)
  | .str s => s
  | .num n => ⟨intChars n⟩
  | .bool b => if b then "True" else "False"
  | .null => "None"

/-- `ConversationManager.add_tool_message`. -/
def add_tool_message (hist : List Message) (tool_call_id : String)
    (name : String) (content : Json) : List Message :=
  hist ++ [{ role := "tool", content := some (toolContentString content),
             tool_call_id := some tool_call_id, name := some name }]

/-- `ConversationManager.clear` empties the underlying message list. -/
def clearHistory (_hist : List Message) : List Message := []

/-! Embedding of src/agent/orchestrator.py.  The chat-completion backend
and the fallible interior of `_execute_tool_call` (argument JSON
decoding, local/MCP dispatch, tool execution) are external collaborators,
passed in as oracles: `chat` maps the 1-based iteration number to either a
raised error or a parsed response, and `ex` maps a tool call to either a
raised error or its result value. -/

/-- The response dict `LLMClient._parse_response` returns: `content` is
always present (possibly `None`), `tool_calls` only when non-empty. -/
structure ChatResponse where
  content : Option String := none
  tool_calls : Option (List ToolCall) := none

/-- The result record `_execute_tool_call` produces (or the orchestrator
builds on a per-call exception). -/
structure ToolCallResult where
  tool_call_id : String
  name : String
  result : Json

/-- One tool call of a turn, through the orchestrator's per-call
`try/except`: an exception becomes the string-encoded result
`"Ошибка: ..."` and never propagates. -/
def runToolCall (ex : ToolCall → Except String Json) (tc : ToolCall) : ToolCallResult :=
  match ex tc with
  | .ok v => { tool_call_id := tc.id, name := tc.function.name, result := v }
  | .error e =>
      { tool_call_id := tc.id, name := tc.function.name,
        result := .str ("Ошибка: " ++ e) }

/-- The message built by `add_tool_message` for one result record. -/
def toolResultMessage (r : ToolCallResult) : Message :=
  { role := "tool", content := some (toolContentString r.result),
    tool_call_id := some r.tool_call_id, name := some r.name }

/-- The block of messages one tool-calling turn appends: the assistant
message carrying the turn's tool-call list, then one tool-result message
per call, in the order the calls were returned. -/
def turnMessages (ex : ToolCall → Except String Json) (content : Option String)
    (tcs : List ToolCall) : List Message :=
  { role := "assistant", content := content, tool_calls := pyToolCalls (some tcs) }
    :: (tcs.map (runToolCall ex)).map toolResultMessage

/-- The fixed return value when the iteration budget is exhausted. -/
def limitMessage : String :=
  "Достигнут максимальный лимит итераций. Попробуйте упростить запрос."

/-- The `while iteration < max_iterations` loop of
`process_user_request`.  `fuel` is the number of iterations still
allowed, `iter` the 1-based number of the next iteration.  Returns the
final answer (`none` models a Python `None` content), the final history
and the number of chat-completion calls performed. -/
def orchLoop (chat : Nat → Except String ChatResponse)
    (ex : ToolCall → Except String Json) :
    Nat → Nat → List Message → Option String × List Message × Nat
  | 0, _, hist => (some limitMessage, hist, 0)
  | fuel + 1, iter, hist =>
    match chat iter with
    | .error e => (some ("Ошибка при обработке запроса: " ++ e), hist, 1)
    | .ok resp =>
      match resp.tool_calls with
      | some (tc :: tcs) =>
        let out := orchLoop chat ex fuel (iter + 1)
          (hist ++ turnMessages ex resp.content (tc :: tcs))
        (out.1, out.2.1, out.2.2 + 1)
      | _ =>
        (resp.content, add_assistant_message hist resp.content none, 1)

/-- The fixed system message inserted into an empty history. -/
def systemMessage : Message :=
  { role := "system",
    content := some "Ты ИИ-агент программист. Ты можешь использовать различные инструменты для работы с кодом, файлами, поиска информации и выполнения задач. Всегда думай шаг за шагом и используй доступные инструменты для выполнения задач пользователя." }

/-- `AgentOrchestrator.process_user_request`: seed the system message if
the store is empty, append the user message, then run the loop. -/
def process_user_request (chat : Nat → Except String ChatResponse)
    (ex : ToolCall → Except String Json) (max_iterations : Nat)
    (user_message : String) (hist : List Message) :
    Option String × List Message × Nat :=
  let h1 := if hist.length = 0 then hist ++ [systemMessage] else hist
  let h2 := add_user_message h1 user_message
  orchLoop chat ex max_iterations 1 h2

/-! Embedding of src/tools/base.py (argument validation). -/

/-- The slice of a JSON-Schema property the validator consults: its
`type` tag, when declared. -/
structure ParamSchema where
  type? : Option String := none

/-- The parameter schema of a tool: `properties` and `required` (absent
keys default to empty, as the `.get(..., ...)` calls do). -/
structure ToolParamsSchema where
  properties : List (String × ParamSchema) := []
  required : List String := []

/-- `BaseTool._check_type`: Python `isinstance` against the type map.
Note that a Python `bool` is an `int`, so a boolean value shallow-matches
`"integer"` and `"number"` as well as `"boolean"`; an unknown type tag
matches anything. -/
def check_type (v : Json) (expected : String) : Bool :=
  if expected = "string" then (match v with | .str _ => true | _ => false)
  else if expected = "integer" then
    (match v with | .num _ => true | .bool _ => true | _ => false)
  else if expected = "number" then
    (match v with | .num _ => true | .bool _ => true | _ => false)
  else if expected = "boolean" then (match v with | .bool _ => true | _ => false)
  else if expected = "array" then (match v with | .arr _ => true | _ => false)
  else if expected = "object" then (match v with | .obj _ => true | _ => false)
  else true

/-- `BaseTool.validate_arguments`: every required parameter must be
present, and every supplied parameter that is declared in `properties`
with a truthy `type` tag must shallow-match it.  Parameters not declared
in `properties` are skipped. -/
def validate_arguments (schema : ToolParamsSchema)
    (arguments : List (String × Json)) : Bool :=
  schema.required.all (fun p => (dictGet arguments p).isSome)
    && arguments.all (fun kv =>
        match dictGet schema.properties kv.1 with
        | none => true
        | some ps =>
          match ps.type? with
          | none => true
          | some t => if t = "" then true else check_type kv.2 t)

/-! Embedding of src/mcp/protocol.py. -/

/-- A JSON-RPC id: `Union[int, str]`. -/
inductive RpcId where
  | num (n : Int)
  | str (s : String)

/-- `MCPError` of src/mcp/protocol.py. -/
structure MCPError where
  code : Int
  message : String
  data : Option (List (String × Json)) := none

/-- `MCPRequest` of src/mcp/protocol.py. -/
structure MCPRequest where
  jsonrpc : String := "2.0"
  id : RpcId
  method : String
  params : Option (List (String × Json)) := none

/-- `MCPResponse` of src/mcp/protocol.py. -/
structure MCPResponse where
  jsonrpc : String := "2.0"
  id : RpcId := .num 0
  result : Option (List (String × Json)) := none
  error : Option MCPError := none

/-- The JSON value of an id. -/
def rpcIdJson : RpcId → Json
  | .num n => .num n
  | .str s => .str s

/-- `request.dict(exclude_none=True)`: the envelope as a JSON object, in
pydantic field order, with a `None` `params` omitted. -/
def requestDict (r : MCPRequest) : Json :=
  .obj ([("jsonrpc", .str r.jsonrpc), ("id", rpcIdJson r.id),
         ("method", .str r.method)]
    ++ (match r.params with
        | some p => [("params", Json.obj p)]
        | none => []))

/-- `serialize_request`: `json.dumps(request.dict(exclude_none=True),
ensure_ascii=False) + "\n"`. -/
def serialize_request (r : MCPRequest) : String :=
  dumps (requestDict r) ++ "\n"

/-- Read the `{id, method, params}` triple back out of a parsed envelope
object, inverting `requestDict`. -/
def readRequestTriple (j : Json) :
    Option (RpcId × String × Option (List (String × Json))) :=
  match j with
  | .obj kvs =>
    match dictGet kvs "id", dictGet kvs "method" with
    | some idj, some (.str m) =>
      match idj with
      | .num n =>
        match dictGet kvs "params" with
        | some (.obj p) => some (.num n, m, some p)
        | none => some (.num n, m, none)
        | some _ => none
      | .str s =>
        match dictGet kvs "params" with
        | some (.obj p) => some (.str s, m, some p)
        | none => some (.str s, m, none)
        | some _ => none
      | _ => none
    | _, _ => none
  | _ => none

/-! Embedding of src/mcp/client.py.  The transport resources (child
process, HTTP session) and the request/response exchange are external:
connection setup takes the transport outcome and the two handshake RPC
outcomes as oracles, and `call_tool` takes the `_send_request` outcome as
an oracle.  The request-id counter is not modelled (no claim concerns
it); requests are built with id 0. -/

/-- One registered server connection: its transport kind and the raw
`tools` value stored by `_load_tools` (a JSON list for a conforming
server). -/
structure MCPServer where
  transport : String
  tools : Json := .arr []

/-- The `servers` dict of an `MCPClient`. -/
abbrev MCPState : Type := List (String × MCPServer)

/-- The slice of a server config `connect_server` consults. -/
structure MCPConfig where
  transport : Option String := none
  command : Option (List String) := none
  url : Option String := none

/-- `MCPClient._load_tools` from the point where the `tools/list`
response is in hand: a transport failure propagates, an RPC error
envelope is non-fatal (the server keeps its empty tool set), a success
stores `result.get("tools", [])`. -/
def load_tools (st : MCPState) (name : String)
    (listSend : Except String MCPResponse) : Except String MCPState :=
  match listSend with
  | .error e => .error e
  | .ok resp =>
    match resp.error with
    | some _ => .ok st
    | none =>
      match resp.result with
      | none => .error "AttributeError: result is None"
      | some result =>
        let tools := (dictGet result "tools").getD (.arr [])
        .ok (dictGet st name |>.elim st (fun srv =>
          dictSet st name { srv with tools := tools }))

/-- `MCPClient._initialize`: a transport failure or an `initialize` error
envelope raises; on success the tool list is loaded. -/
def initConnection (st : MCPState) (name : String)
    (initSend : Except String MCPResponse)
    (listSend : Except String MCPResponse) : Except String MCPState :=
  match initSend with
  | .error e => .error e
  | .ok resp =>
    match resp.error with
    | some err =>
        .error ("Ошибка инициализации MCP сервера " ++ name ++ ": " ++ err.message)
    | none => load_tools st name listSend

/-- `MCPClient.connect_server`.  Returns the call's outcome together
with the client's `servers` dict afterwards — a raised exception leaves
whatever state the mutations so far produced, exactly as in Python.
`transportOk` is the outcome of spawning the child process / creating
the HTTP session. -/
def connect_server (st : MCPState) (name : String) (config : MCPConfig)
    (transportOk : Except String Unit)
    (initSend : Except String MCPResponse)
    (listSend : Except String MCPResponse) :
    Except String Unit × MCPState :=
  let transport := config.transport.getD "stdio"
  if transport = "stdio" then
    match config.command with
    | none => (.error "KeyError: command", st)
    | some _ =>
      match transportOk with
      | .error e => (.error e, st)
      | .ok _ =>
        let st1 := dictSet st name { transport := "stdio" }
        match initConnection st1 name initSend listSend with
        | .error e => (.error e, st1)
        | .ok st2 => (.ok (), st2)
  else if transport = "http" then
    match config.url with
    | none => (.error ("URL обязателен для HTTP транспорта сервера " ++ name), st)
    | some _ =>
      match transportOk with
      | .error e => (.error e, st)
      | .ok _ =>
        let st1 := dictSet st name { transport := "http" }
        match initConnection st1 name initSend listSend with
        | .error e => (.error e, st1)
        | .ok st2 => (.ok (), st2)
  else (.error ("Неподдерживаемый транспорт: " ++ transport), st)

/-- An exported tool descriptor in OpenAI `tools` format (the constant
`type: "function"` wrapper is implicit). -/
structure OpenAITool where
  name : String
  description : Json := .str ""
  parameters : Json := .obj []

/-- Python `str()` of a parsed JSON value, as an f-string would render
it (only the string case matters to any claim; the rest is a reasonable
rendering of Python's `repr`-based formatting). -/
def pyStrJson : Json → String
  | .str s => s
  | .num n => ⟨intChars n⟩
  | .bool b => if b then "True" else "False"
  | .null => "None"
  | .arr xs => dumps (.arr xs)
  | .obj kvs => dumps (.obj kvs)

/-- `MCPClient._convert_mcp_tool_to_openai`: the exported name is
`f"{server_name}.{mcp_tool['name']}"`; a missing `name` key or a
non-object descriptor raises. -/
def convert_mcp_tool_to_openai (mcp_tool : Json) (server_name : String) :
    Except String OpenAITool :=
  match mcp_tool with
  | .obj kvs =>
    match dictGet kvs "name" with
    | none => .error "KeyError: name"
    | some nv =>
      .ok { name := server_name ++ "." ++ pyStrJson nv,
            description := (dictGet kvs "description").getD (.str ""),
            parameters := (dictGet kvs "inputSchema").getD (.obj []) }
  | _ => .error "TypeError: mcp_tool is not a dict"

/-- Map a fallible function over a list, stopping at the first raised
error (the semantics of a Python `for` loop building a result list). -/
def mapME {α β : Type} (f : α → Except String β) : List α → Except String (List β)
  | [] => .ok []
  | a :: as =>
    match f a with
    | .error e => .error e
    | .ok b =>
      match mapME f as with
      | .error e => .error e
      | .ok bs => .ok (b :: bs)

/-- `MCPClient.list_tools` (the all-servers form): every discovered
descriptor of every connection, converted to OpenAI format. -/
def list_tools (st : MCPState) : Except String (List OpenAITool) :=
  (mapME (fun (nv : String × MCPServer) =>
      match nv.2.tools with
      | .arr ts => mapME (fun t => convert_mcp_tool_to_openai t nv.1) ts
      | _ => .error "TypeError: tools is not a list") st).map List.flatten

/-- `AgentOrchestrator._get_available_tools`: local descriptors first,
then the MCP catalog; a failing `list_tools` is caught and contributes
nothing. -/
def get_available_tools (localTools : List OpenAITool) (st : MCPState) :
    List OpenAITool :=
  localTools ++ (match list_tools st with | .ok l => l | .error _ => [])

/-- Split a tool name at its first `.`, if it has one
(`tool_name.split(".", 1)`). -/
def splitFirstDot : List Char → Option (List Char × List Char)
  | [] => none
  | c :: r =>
      if c = '.' then some ([], r)
      else (fun p => (c :: p.1, p.2)) <$> splitFirstDot r

/-- The text value of one entry of a `tools/call` result content list:
`some s` for an entry tagged `type: "text"` (its `text`, defaulting to
`""`), `none` for an entry with another tag; a non-object entry or a
non-string `text` raises. -/
def itemText (item : Json) : Except String (Option String) :=
  match item with
  | .obj kvs =>
    match dictGet kvs "type" with
    | some (.str tag) =>
      if tag = "text" then
        match (dictGet kvs "text").getD (.str "") with
        | .str s => .ok (some s)
        | _ => .error "TypeError: text is not a string"
      else .ok none
    | _ => .ok none
  | _ => .error "AttributeError: item is not a dict"

/-- The `text` values of all text-tagged entries, in order. -/
def textsOf : List Json → Except String (List String)
  | [] => .ok []
  | item :: items =>
    match itemText item with
    | .error e => .error e
    | .ok none => textsOf items
    | .ok (some s) => (fun ts => s :: ts) <$> textsOf items

/-- The result formatting of `MCPClient.call_tool` (source lines
309–338): extract `content`, join the text entries, strip, try JSON,
fall back to the raw text, the raw content list, or the whole result
object, matching the branch structure of the code. -/
def formatCallResult (result : List (String × Json)) : Except String Json :=
  let result_content := (dictGet result "content").getD (.arr [])
  if pyTruthy result_content then
    match result_content with
    | .arr items =>
      match textsOf items with
      | .error e => .error e
      | .ok texts =>
        if texts.isEmpty then .ok (.arr items)
        else
          let text_content := pyStrip (String.intercalate "\n" texts)
          if text_content = "" then .ok (.arr items)
          else
            match jsonLoads text_content with
            | some v => .ok v
            | none => .ok (.str text_content)
    | _ => .error "TypeError: content is not a list"
  else .ok (.obj result)

/-- `MCPClient.call_tool`: split the dotted name, find the connection,
send the `tools/call` RPC (outcome supplied by the `send` oracle), fail
on an error envelope, format a success. -/
def call_tool (st : MCPState) (send : MCPRequest → Except String MCPResponse)
    (tool_name : String) (args : List (String × Json)) : Except String Json :=
  match splitFirstDot tool_name.data with
  | none =>
      .error ("Неверный формат имени инструмента: " ++ tool_name
        ++ ". Ожидается: server.tool")
  | some (serverChars, toolChars) =>
    let server_name : String := ⟨serverChars⟩
    let actual_tool_name : String := ⟨toolChars⟩
    match dictGet st server_name with
    | none => .error ("Сервер " ++ server_name ++ " не подключен")
    | some _ =>
      match send { id := .num 0, method := "tools/call",
                   params := some [("name", .str actual_tool_name),
                                   ("arguments", .obj args)] } with
      | .error e => .error e
      | .ok resp =>
        match resp.error with
        | some err => .error ("Ошибка при вызове инструмента: " ++ err.message)
        | none =>
          match resp.result with
          | none => .error "AttributeError: result is None"
          | some result => formatCallResult result

/-- `MCPClient.disconnect_server`: a no-op when the name is unknown;
otherwise the transport is torn down (for stdio, `terminate`/`wait` may
raise, in which case the entry is NOT removed; the http path catches its
own close errors) and the entry is deleted.  `stdioTerm` is the outcome
of terminating the child process. -/
def disconnect_server (st : MCPState) (name : String)
    (stdioTerm : Except String Unit) : Except String MCPState :=
  match dictGet st name with
  | none => .ok st
  | some srv =>
    if srv.transport = "stdio" then
      match stdioTerm with
      | .error e => .error e
      | .ok _ => .ok (dictDel st name)
    else .ok (dictDel st name)

/-! A lifetime of one Message Store: the operations that touch it,
sequenced.  `procReq` is a whole `process_user_request` call (with its
oracles), `clearStore` is `ConversationManager.clear`, `addMsg` is any of
the direct `add_*` appends. -/

/-- One operation on the Message Store. -/
inductive StoreOp where
  | procReq (chat : Nat → Except String ChatResponse)
      (ex : ToolCall → Except String Json) (max_iterations : Nat) (text : String)
  | clearStore
  | addMsg (m : Message)

/-- Apply one operation: the history afterwards, and how many times the
operation inserted the fixed system message (`process_user_request`
inserts it exactly when the store was empty at the start of the call). -/
def applyOp : StoreOp → List Message → List Message × Nat
  | .procReq chat ex n text, hist =>
      ((process_user_request chat ex n text hist).2.1,
       if hist.length = 0 then 1 else 0)
  | .clearStore, hist => (clearHistory hist, 0)
  | .addMsg m, hist => (hist ++ [m], 0)

/-- Run a sequence of operations, accumulating the total number of
system-message insertions. -/
def runOps : List StoreOp → List Message → List Message × Nat
  | [], hist => (hist, 0)
  | op :: ops, hist =>
      let p := applyOp op hist
      let q := runOps ops p.1
      (q.1, p.2 + q.2)

/-! Helper lemmas about the dict model. -/

theorem dictGet_dictDel_self {α : Type} (d : List (String × α)) (k : String) :
    dictGet (dictDel d k) k = none := by
  induction d with
  | nil => rfl
  | cons kv rest ih =>
    by_cases h : kv.1 = k
    · simp [dictDel, List.filter, h] at ih ⊢
      simpa [dictDel] using ih
    · simp [dictDel, List.filter, h] at ih ⊢
      simpa [dictGet, h, dictDel] using ih

theorem dictGet_dictSet_self {α : Type} (d : List (String × α)) (k : String) (v : α) :
    dictGet (dictSet d k v) k = some v := by
  induction d with
  | nil => simp [dictSet, dictGet]
  | cons kv rest ih =>
    by_cases h : kv.1 = k
    · cases kv with
      | mk k1 v1 => simp_all [dictSet, dictGet]
    · cases kv with
      | mk k1 v1 => simp_all [dictSet, dictGet]

/-- C9: a second `disconnect_server` on a name after a successful
disconnect returns without error and leaves the connection set
unchanged — the `if name not in self.servers: return` guard short-circuits
before any transport teardown, whatever the teardown oracle would do. -/
theorem c9_disconnect_twice_noop (st : MCPState) (name : String)
    (o1 o2 : Except String Unit) (st' : MCPState)
    (h : disconnect_server st name o1 = .ok st') :
    disconnect_server st' name o2 = .ok st' := by
  unfold disconnect_server at h
  cases hg : dictGet st name with
  | none =>
    rw [hg] at h
    simp at h
    subst h
    simp [disconnect_server, hg]
  | some srv =>
    rw [hg] at h
    simp at h
    have hst : st' = dictDel st name := by
      split at h
      · cases o1 with
        | error e => simp at h
        | ok u => simp at h; exact h.symm
      · simp at h; exact h.symm
    subst hst
    simp [disconnect_server, dictGet_dictDel_self]

/-- Witness for C9 at a concrete connection set. -/
theorem c9_disconnect_twice_noop_witness :
    disconnect_server [("fs", { transport := "http" })] "fs" (.ok ()) = .ok []
      ∧ disconnect_server [] "fs" (.ok ()) = .ok [] :=
  ⟨by rfl, c9_disconnect_twice_noop [("fs", { transport := "http" })] "fs"
    (.ok ()) (.ok ()) [] (by rfl)⟩

/-- Origin of each element of a successful `Except`-valued map. -/
theorem mapME_ok_mem {α β : Type} (f : α → Except String β) :
    ∀ (l : List α) (out : List β), mapME f l = .ok out →
      ∀ b ∈ out, ∃ a ∈ l, f a = .ok b := by
  intro l
  induction l with
  | nil =>
    intro out h b hb
    simp only [mapME] at h
    injection h with h
    subst h
    simp at hb
  | cons a as ih =>
    intro out h b hb
    simp only [mapME] at h
    cases hfa : f a with
    | error e => rw [hfa] at h; simp at h
    | ok x =>
      rw [hfa] at h
      cases hrest : mapME f as with
      | error e => rw [hrest] at h; simp at h
      | ok xs =>
        rw [hrest] at h
        simp at h
        subst h
        rcases List.mem_cons.mp hb with hb | hb
        · exact ⟨a, List.mem_cons_self a as, hb ▸ hfa⟩
        · rcases ih xs hrest b hb with ⟨a2, ha2, hfa2⟩
          exact ⟨a2, List.mem_cons_of_mem a ha2, hfa2⟩

/-- C7: remote descriptors are exported under the dot-qualified name
`"{serverName}.{toolName}"`, the merged catalog is local descriptors
followed by the remote ones, and a dot-qualified name can never equal a
local name containing no dot. -/
theorem c7_remote_names_dot_qualified (st : MCPState) (tools2 : List OpenAITool)
    (h : list_tools st = .ok tools2) :
    (∀ localTools : List OpenAITool,
        get_available_tools localTools st = localTools ++ tools2) ∧
    ∀ t ∈ tools2,
      (∃ (server : String) (srv : MCPServer) (toolName : String),
          (server, srv) ∈ st ∧ t.name = server ++ "." ++ toolName) ∧
      ('.' ∈ t.name.data) ∧
      ∀ localName : String, '.' ∉ localName.data → localName ≠ t.name := by
  constructor
  · intro localTools
    simp [get_available_tools, h]
  intro t ht
  unfold list_tools at h
  cases hm : mapME (fun (nv : String × MCPServer) =>
      match nv.2.tools with
      | .arr ts => mapME (fun tj => convert_mcp_tool_to_openai tj nv.1) ts
      | _ => .error "TypeError: tools is not a list") st with
  | error e => rw [hm] at h; simp [Except.map] at h
  | ok parts =>
    rw [hm] at h
    simp only [Except.map] at h
    injection h with h
    subst h
    rcases List.mem_flatten.mp ht with ⟨part, hpart, htp⟩
    rcases mapME_ok_mem _ st parts hm part hpart with ⟨nv, hnv, hg⟩
    have hname : ∃ toolName : String, t.name = nv.1 ++ "." ++ toolName := by
      cases htools : nv.2.tools with
      | arr ts =>
        rw [htools] at hg
        simp at hg
        rcases mapME_ok_mem _ ts part hg t htp with ⟨tj, _, hconv⟩
        cases tj with
        | obj kvs =>
          simp only [convert_mcp_tool_to_openai] at hconv
          cases hn : dictGet kvs "name" with
          | none => rw [hn] at hconv; simp at hconv
          | some v =>
            rw [hn] at hconv
            simp at hconv
            exact ⟨pyStrJson v, by rw [← hconv]⟩
        | null => simp [convert_mcp_tool_to_openai] at hconv
        | bool b => simp [convert_mcp_tool_to_openai] at hconv
        | num n => simp [convert_mcp_tool_to_openai] at hconv
        | str s => simp [convert_mcp_tool_to_openai] at hconv
        | arr xs => simp [convert_mcp_tool_to_openai] at hconv
      | null => rw [htools] at hg; simp at hg
      | bool b => rw [htools] at hg; simp at hg
      | num n => rw [htools] at hg; simp at hg
      | str s => rw [htools] at hg; simp at hg
      | obj kvs => rw [htools] at hg; simp at hg
    rcases hname with ⟨toolName, hname⟩
    have hdot : '.' ∈ t.name.data := by
      rw [hname]
      rw [String.data_append, String.data_append]
      simp
    refine ⟨⟨nv.1, nv.2, toolName, ?_, hname⟩, hdot, ?_⟩
    · simpa using hnv
    · intro localName hL heq
      exact hL (by rw [heq]; exact hdot)

/-- The connection set of the C7 witness: one server `fs` exposing one
remote tool named `write`. -/
def fsWriteState : MCPState :=
  [("fs", { transport := "stdio", tools := Json.arr [Json.obj [("name", Json.str "write")]] })]

/-- Witness for C7: a remote tool `write` on server `fs` is exported as
`fs.write` and cannot collide with the local name `write`. -/
theorem c7_remote_names_dot_qualified_witness :
    list_tools fsWriteState = .ok [{ name := "fs.write" }] ∧
    ("write" : String) ≠ ({ name := "fs.write" } : OpenAITool).name := by
  have h : list_tools fsWriteState = .ok [{ name := "fs.write" }] := by rfl
  refine ⟨h, ?_⟩
  exact ((c7_remote_names_dot_qualified _ _ h).2 _ (by simp)).2.2 "write" (by decide)

/-- Key membership for a conditional string field. -/
theorem mem_strFieldEntry (key key' : String) (o : Option String) :
    key' ∈ (strFieldEntry key o).map Prod.fst ↔
      (key' = key ∧ ∃ s, o = some s ∧ s ≠ "") := by
  cases o with
  | none => simp [strFieldEntry]
  | some s =>
    by_cases hs : s = ""
    · simp [strFieldEntry, hs]
    · simp [strFieldEntry, hs]

/-- Key membership for the conditional `tool_calls` field. -/
theorem mem_callsFieldEntry (key' : String) (o : Option (List ToolCall)) :
    key' ∈ (callsFieldEntry o).map Prod.fst ↔
      (key' = "tool_calls" ∧ ∃ t ts, o = some (t :: ts)) := by
  cases o with
  | none => simp [callsFieldEntry]
  | some l =>
    cases l with
    | nil => simp [callsFieldEntry]
    | cons t ts => simp [callsFieldEntry]

/-- C10: the wire projection drops every optional field whose value is
falsy — `None`, the empty string, the empty tool-call list — and keeps a
field exactly when its value is truthy; `role` is always present.  In
particular a stored message whose content is `""` has no `content` key. -/
theorem c10_projection_drops_falsy (m : Message) :
    (("content" ∈ (projectMessage m).map Prod.fst) ↔
        ∃ s, m.content = some s ∧ s ≠ "") ∧
    (("tool_calls" ∈ (projectMessage m).map Prod.fst) ↔
        ∃ t ts, m.tool_calls = some (t :: ts)) ∧
    (("tool_call_id" ∈ (projectMessage m).map Prod.fst) ↔
        ∃ s, m.tool_call_id = some s ∧ s ≠ "") ∧
    (("name" ∈ (projectMessage m).map Prod.fst) ↔
        ∃ s, m.name = some s ∧ s ≠ "") ∧
    ("role" ∈ (projectMessage m).map Prod.fst) := by
  refine ⟨?_, ?_, ?_, ?_, ?_⟩ <;>
    · simp only [projectMessage, List.map_append, List.mem_append,
        mem_strFieldEntry, mem_callsFieldEntry, List.map_cons, List.map_nil,
        List.mem_singleton]
      simp

/-- Witness for C10: an assistant message stored with content `""` has no
`content` key in its wire record. -/
theorem c10_projection_drops_falsy_witness :
    "content" ∉ (projectMessage { role := "assistant", content := some "" }).map
      Prod.fst := by
  intro hmem
  rcases (c10_projection_drops_falsy
      { role := "assistant", content := some "" }).1.mp hmem with ⟨s, hs, hne⟩
  simp at hs
  exact hne hs.symm

/-- A hit in the front dict survives appending more bindings. -/
theorem dictGet_append_some {α : Type} (l1 l2 : List (String × α)) (k : String)
    (v : α) (h : dictGet l1 k = some v) : dictGet (l1 ++ l2) k = some v := by
  induction l1 with
  | nil => simp [dictGet] at h
  | cons kv rest ih =>
    by_cases hk : kv.1 = k
    · cases kv
      simp_all [dictGet]
    · cases kv
      simp_all [dictGet]

/-- The per-argument type check of `validate_arguments`, as a named
predicate (the body of the second loop). -/
def argOk (schema : ToolParamsSchema) (kv : String × Json) : Bool :=
  match dictGet schema.properties kv.1 with
  | none => true
  | some ps =>
    match ps.type? with
    | none => true
    | some t => if t = "" then true else check_type kv.2 t

/-- `validate_arguments` in terms of `argOk`. -/
theorem validate_arguments_eq (schema : ToolParamsSchema)
    (arguments : List (String × Json)) :
    validate_arguments schema arguments =
      (schema.required.all (fun p => (dictGet arguments p).isSome)
        && arguments.all (argOk schema)) := rfl

/-- When does the per-argument check fail? -/
theorem argOk_false_iff (schema : ToolParamsSchema) (kv : String × Json) :
    argOk schema kv = false ↔
      ∃ ps, dictGet schema.properties kv.1 = some ps ∧
        ∃ t, ps.type? = some t ∧ t ≠ "" ∧ check_type kv.2 t = false := by
  unfold argOk
  cases hps : dictGet schema.properties kv.1 with
  | none => simp
  | some ps =>
    cases ht : ps.type? with
    | none => simp [ht]
    | some t =>
      by_cases he : t = ""
      · simp [ht, he]
      · simp [ht, he]

/-- C5: validation fails exactly when a required parameter is absent or a
supplied parameter that is declared in `properties` fails the shallow
type check against its truthy `type` tag; and a parameter that is not
declared in `properties` never turns a passing validation into a failing
one. -/
theorem c5_validate_arguments_iff (schema : ToolParamsSchema)
    (arguments : List (String × Json)) :
    (validate_arguments schema arguments = false ↔
      (∃ p ∈ schema.required, dictGet arguments p = none) ∨
      (∃ p v, (p, v) ∈ arguments ∧
        ∃ ps, dictGet schema.properties p = some ps ∧
          ∃ t, ps.type? = some t ∧ t ≠ "" ∧ check_type v t = false)) ∧
    (∀ (q : String) (v : Json), dictGet schema.properties q = none →
      validate_arguments schema arguments = true →
      validate_arguments schema (arguments ++ [(q, v)]) = true) := by
  constructor
  · rw [validate_arguments_eq]
    rw [Bool.and_eq_false_iff]
    constructor
    · rintro (h | h)
      · rcases List.all_eq_false.mp h with ⟨p, hp, hfail⟩
        left
        refine ⟨p, hp, ?_⟩
        cases hg : dictGet arguments p with
        | none => rfl
        | some w => rw [hg] at hfail; simp at hfail
      · rcases List.all_eq_false.mp h with ⟨⟨p, v⟩, hp, hfail⟩
        right
        exact ⟨p, v, hp, (argOk_false_iff schema (p, v)).mp (by simpa using hfail)⟩
    · rintro (⟨p, hp, hnone⟩ | ⟨p, v, hmem, hrest⟩)
      · left
        refine List.all_eq_false.mpr ⟨p, hp, ?_⟩
        simp [hnone]
      · right
        refine List.all_eq_false.mpr ⟨(p, v), hmem, ?_⟩
        simp [argOk_false_iff schema (p, v)]
        exact hrest
  · intro q v hq hvalid
    rw [validate_arguments_eq] at hvalid ⊢
    rw [Bool.and_eq_true] at hvalid
    rw [Bool.and_eq_true]
    constructor
    · refine List.all_eq_true.mpr ?_
      intro p hp
      have := List.all_eq_true.mp hvalid.1 p hp
      cases hg : dictGet arguments p with
      | none => rw [hg] at this; simp [Option.isSome] at this
      | some w => simp [dictGet_append_some arguments [(q, v)] p w hg]
    · refine List.all_eq_true.mpr ?_
      intro kv hkv
      rcases List.mem_append.mp hkv with hkv | hkv
      · exact List.all_eq_true.mp hvalid.2 kv hkv
      · have hkv' : kv = (q, v) := by simpa using hkv
        subst hkv'
        simp [argOk, hq]

/-- A concrete parameter schema for the C5 witness: one required string
parameter `path`. -/
def schemaW : ToolParamsSchema :=
  { properties := [("path", { type? := some "string" })], required := ["path"] }

/-- Witness for C5: a valid argument mapping stays valid when an
undeclared parameter is added. -/
theorem c5_validate_arguments_iff_witness :
    dictGet schemaW.properties "extra" = none ∧
    validate_arguments schemaW [("path", Json.str "a.txt")] = true ∧
    validate_arguments schemaW
      ([("path", Json.str "a.txt")] ++ [("extra", Json.str "x")]) = true :=
  ⟨rfl, rfl, (c5_validate_arguments_iff schemaW [("path", Json.str "a.txt")]).2
    "extra" (Json.str "x") rfl rfl⟩

/-- C1: a tool-calling turn appends exactly one assistant message
carrying the turn's tool-call list followed by exactly N tool-result
messages, the i-th carrying the id of the i-th call; a call whose
execution raises yields a string-encoded error result, and every call of
the turn gets its result message regardless of the others.  The loop step
equation ties the block to `orchLoop`. -/
theorem c1_turn_appends_results (ex : ToolCall → Except String Json)
    (content : Option String) (tcs : List ToolCall) :
    (turnMessages ex content tcs).length = tcs.length + 1 ∧
    (turnMessages ex content tcs)[0]? =
      some { role := "assistant", content := content,
             tool_calls := pyToolCalls (some tcs) } ∧
    (∀ i, i < tcs.length →
      ∃ m tc, (turnMessages ex content tcs)[i + 1]? = some m ∧
        tcs[i]? = some tc ∧
        m.role = "tool" ∧ m.tool_call_id = some tc.id ∧
        m.name = some tc.function.name ∧
        (∀ e, ex tc = .error e → m.content = some ("Ошибка: " ++ e)) ∧
        (∀ v, ex tc = .ok v → m.content = some (toolContentString v))) ∧
    (∀ (chat : Nat → Except String ChatResponse) (fuel iter : Nat)
        (hist : List Message) (resp : ChatResponse) (tc0 : ToolCall)
        (rest : List ToolCall),
      chat iter = .ok resp → resp.tool_calls = some (tc0 :: rest) →
      orchLoop chat ex (fuel + 1) iter hist =
        ((orchLoop chat ex fuel (iter + 1)
            (hist ++ turnMessages ex resp.content (tc0 :: rest))).1,
         (orchLoop chat ex fuel (iter + 1)
            (hist ++ turnMessages ex resp.content (tc0 :: rest))).2.1,
         (orchLoop chat ex fuel (iter + 1)
            (hist ++ turnMessages ex resp.content (tc0 :: rest))).2.2 + 1)) := by
  refine ⟨?_, ?_, ?_, ?_⟩
  · simp [turnMessages]
  · simp [turnMessages]
  · intro i hi
    have hget : ∃ tc, tcs[i]? = some tc := ⟨tcs[i], List.getElem?_eq_getElem hi⟩
    rcases hget with ⟨tc, htc⟩
    refine ⟨toolResultMessage (runToolCall ex tc), tc, ?_, htc, ?_, ?_, ?_, ?_, ?_⟩
    · simp only [turnMessages, List.getElem?_cons_succ, List.getElem?_map, htc,
        Option.map_some]
      rfl
    · simp [toolResultMessage]
    · simp [toolResultMessage, runToolCall]
      cases hex : ex tc with
      | ok v => simp
      | error e => simp
    · simp [toolResultMessage, runToolCall]
      cases hex : ex tc with
      | ok v => simp
      | error e => simp
    · intro e he
      simp [toolResultMessage, runToolCall, he, toolContentString]
    · intro v hv
      simp [toolResultMessage, runToolCall, hv]
  · intro chat fuel iter hist resp tc0 rest hchat htc
    simp [orchLoop, hchat, htc]

/-- A concrete tool call whose execution succeeds in the C1 witness. -/
def tcA : ToolCall :=
  { id := "call_1", function := { name := "write", arguments := "\x7b\x7d" } }

/-- A concrete tool call whose execution raises in the C1 witness. -/
def tcB : ToolCall :=
  { id := "call_2", function := { name := "fs.read", arguments := "\x7b\x7d" } }

/-- The execution oracle of the C1 witness: `call_1` succeeds, everything
else raises. -/
def exW : ToolCall → Except String Json :=
  fun tc => if tc.id = "call_1" then .ok (.str "done") else .error "boom"

/-- Witness for C1 at a two-call turn whose second call raises. -/
theorem c1_turn_appends_results_witness :
    1 < ([tcA, tcB] : List ToolCall).length ∧
    ∃ m tc, (turnMessages exW (some "hi") [tcA, tcB])[1 + 1]? = some m ∧
      ([tcA, tcB] : List ToolCall)[1]? = some tc ∧
      m.role = "tool" ∧ m.tool_call_id = some tc.id ∧
      m.name = some tc.function.name ∧
      (∀ e, exW tc = .error e → m.content = some ("Ошибка: " ++ e)) ∧
      (∀ v, exW tc = .ok v → m.content = some (toolContentString v)) :=
  ⟨by decide, (c1_turn_appends_results exW (some "hi") [tcA, tcB]).2.2.1 1
    (by decide)⟩

/-- The loop performs at most `fuel` chat-completion calls. -/
theorem orchLoop_calls_le (chat : Nat → Except String ChatResponse)
    (ex : ToolCall → Except String Json) :
    ∀ (fuel iter : Nat) (hist : List Message),
      (orchLoop chat ex fuel iter hist).2.2 ≤ fuel := by
  intro fuel
  induction fuel with
  | zero => intro iter hist; simp [orchLoop]
  | succ n ih =>
    intro iter hist
    cases hc : chat iter with
    | error e => simp [orchLoop, hc]
    | ok resp =>
      cases htc : resp.tool_calls with
      | none => simp [orchLoop, hc, htc]
      | some l =>
        cases l with
        | nil => simp [orchLoop, hc, htc]
        | cons tc rest =>
          simp only [orchLoop, hc, htc]
          exact Nat.succ_le_succ (ih _ _)

/-- The loop only appends to the history. -/
theorem orchLoop_extends (chat : Nat → Except String ChatResponse)
    (ex : ToolCall → Except String Json) :
    ∀ (fuel iter : Nat) (hist : List Message),
      ∃ tail, (orchLoop chat ex fuel iter hist).2.1 = hist ++ tail := by
  intro fuel
  induction fuel with
  | zero => intro iter hist; exact ⟨[], by simp [orchLoop]⟩
  | succ n ih =>
    intro iter hist
    cases hc : chat iter with
    | error e => exact ⟨[], by simp [orchLoop, hc]⟩
    | ok resp =>
      cases htc : resp.tool_calls with
      | none =>
        refine ⟨[{ role := "assistant", content := resp.content, tool_calls := pyToolCalls none }], ?_⟩
        simp [orchLoop, hc, htc, add_assistant_message]
      | some l =>
        cases l with
        | nil =>
          refine ⟨[{ role := "assistant", content := resp.content, tool_calls := pyToolCalls none }], ?_⟩
          simp [orchLoop, hc, htc, add_assistant_message]
        | cons tc rest =>
          rcases ih (iter + 1) (hist ++ turnMessages ex resp.content (tc :: rest))
            with ⟨tail, htail⟩
          refine ⟨turnMessages ex resp.content (tc :: rest) ++ tail, ?_⟩
          simp only [orchLoop, hc, htc]
          rw [htail, List.append_assoc]

/-- When every turn returns a non-empty tool-call list, the loop runs its
full budget, ends with the fixed limit message, and the block each of the
`fuel` executed turns appended is still a contiguous segment of the final
history. -/
theorem orchLoop_all_tool_calls (chat : Nat → Except String ChatResponse)
    (ex : ToolCall → Except String Json)
    (hall : ∀ i, ∃ resp tc rest, chat i = .ok resp ∧
        resp.tool_calls = some (tc :: rest)) :
    ∀ (fuel iter : Nat) (hist : List Message),
      (orchLoop chat ex fuel iter hist).1 = some limitMessage ∧
      (orchLoop chat ex fuel iter hist).2.2 = fuel ∧
      ∀ k, k < fuel → ∀ resp tc rest, chat (iter + k) = .ok resp →
        resp.tool_calls = some (tc :: rest) →
        ∃ pre post, (orchLoop chat ex fuel iter hist).2.1
          = pre ++ (turnMessages ex resp.content (tc :: rest) ++ post) := by
  intro fuel
  induction fuel with
  | zero =>
    intro iter hist
    refine ⟨by simp [orchLoop], by simp [orchLoop], ?_⟩
    intro k hk
    exact absurd hk (by omega)
  | succ n ih =>
    intro iter hist
    rcases hall iter with ⟨resp0, tc0, rest0, hc0, htc0⟩
    have ihh := ih (iter + 1)
      (hist ++ turnMessages ex resp0.content (tc0 :: rest0))
    refine ⟨?_, ?_, ?_⟩
    · simp only [orchLoop, hc0, htc0]
      exact ihh.1
    · simp only [orchLoop, hc0, htc0]
      rw [ihh.2.1]
    · intro k hk resp tc rest hc htc
      simp only [orchLoop, hc0, htc0]
      cases k with
      | zero =>
        rw [Nat.add_zero, hc0] at hc
        injection hc with hresp
        subst hresp
        rw [htc0] at htc
        injection htc with hl
        rcases orchLoop_extends chat ex n (iter + 1)
            (hist ++ turnMessages ex resp0.content (tc0 :: rest0))
          with ⟨tail, htail⟩
        refine ⟨hist, tail, ?_⟩
        rw [htail, hl, List.append_assoc]
      | succ j =>
        have harith : iter + (j + 1) = (iter + 1) + j := by omega
        rw [harith] at hc
        exact ihh.2.2 j (by omega) resp tc rest hc htc

/-- C2: `process_user_request` performs at most `max_iterations`
chat-completion calls; the store only grows; and when every turn returns
tool calls it returns the fixed iteration-limit message after exactly
`max_iterations` turns, with the assistant/tool-result block appended by
each of those turns still a contiguous segment of the Message Store
afterwards. -/
theorem c2_loop_bounded (chat : Nat → Except String ChatResponse)
    (ex : ToolCall → Except String Json) (max_iterations : Nat)
    (text : String) (hist : List Message) :
    (process_user_request chat ex max_iterations text hist).2.2 ≤ max_iterations ∧
    (∃ tail, (process_user_request chat ex max_iterations text hist).2.1
        = hist ++ tail) ∧
    ((∀ i, ∃ resp tc rest, chat i = .ok resp ∧
        resp.tool_calls = some (tc :: rest)) →
      (process_user_request chat ex max_iterations text hist).1
          = some limitMessage ∧
      (process_user_request chat ex max_iterations text hist).2.2
          = max_iterations ∧
      ∀ i, 1 ≤ i → i ≤ max_iterations →
        ∀ resp tc rest, chat i = .ok resp →
          resp.tool_calls = some (tc :: rest) →
          ∃ pre post,
            (process_user_request chat ex max_iterations text hist).2.1
              = pre ++ (turnMessages ex resp.content (tc :: rest) ++ post)) := by
  refine ⟨?_, ?_, ?_⟩
  · exact orchLoop_calls_le chat ex max_iterations 1 _
  · unfold process_user_request
    rcases orchLoop_extends chat ex max_iterations 1
        (add_user_message (if hist.length = 0 then hist ++ [systemMessage] else hist)
          text) with ⟨tail, htail⟩
    by_cases h0 : hist.length = 0
    · refine ⟨[systemMessage] ++ [{ role := "user", content := some text }] ++ tail, ?_⟩
      simp only [h0, if_pos rfl] at htail ⊢
      rw [htail]
      simp [add_user_message]
    · refine ⟨[{ role := "user", content := some text }] ++ tail, ?_⟩
      simp only [if_neg h0] at htail ⊢
      rw [htail]
      simp [add_user_message]
  · intro hall
    have h := orchLoop_all_tool_calls chat ex hall max_iterations 1
      (add_user_message (if hist.length = 0 then hist ++ [systemMessage] else hist)
        text)
    refine ⟨h.1, h.2.1, ?_⟩
    intro i h1 h2 resp tc rest hc htc
    have harith : 1 + (i - 1) = i := by omega
    exact h.2.2 (i - 1) (by omega) resp tc rest (by rw [harith]; exact hc) htc

/-- The chat oracle of the C2 witness: every turn issues one tool call. -/
def chatToolsW : Nat → Except String ChatResponse :=
  fun _ => .ok { content := some "working", tool_calls := some [tcA] }

/-- Witness for C2: with two allowed iterations and a backend that always
calls tools, the request consumes exactly two turns, returns the fixed
limit message, and the first turn's appended block is still a segment of
the final store. -/
theorem c2_loop_bounded_witness :
    (∀ i, ∃ resp tc rest, chatToolsW i = .ok resp ∧
        resp.tool_calls = some (tc :: rest)) ∧
    (process_user_request chatToolsW exW 2 "go" []).1 = some limitMessage ∧
    (process_user_request chatToolsW exW 2 "go" []).2.2 = 2 ∧
    ∃ pre post, (process_user_request chatToolsW exW 2 "go" []).2.1
      = pre ++ (turnMessages exW (some "working") [tcA] ++ post) :=
  have hall : ∀ i, ∃ resp tc rest, chatToolsW i = .ok resp ∧
      resp.tool_calls = some (tc :: rest) :=
    fun _ => ⟨{ content := some "working", tool_calls := some [tcA] }, tcA, [],
      rfl, rfl⟩
  have h := (c2_loop_bounded chatToolsW exW 2 "go" []).2.2 hall
  ⟨hall, h.1, h.2.1,
    h.2.2 1 (by decide) (by decide)
      { content := some "working", tool_calls := some [tcA] } tcA [] rfl rfl⟩

/-- A `process_user_request` call always leaves a non-empty store (it
appends the user message before the loop, and the loop never removes). -/
theorem process_user_request_ne_nil (chat : Nat → Except String ChatResponse)
    (ex : ToolCall → Except String Json) (n : Nat) (text : String)
    (hist : List Message) :
    (process_user_request chat ex n text hist).2.1 ≠ [] := by
  unfold process_user_request
  rcases orchLoop_extends chat ex n 1
      (add_user_message (if hist.length = 0 then hist ++ [systemMessage] else hist)
        text) with ⟨tail, htail⟩
  rw [htail]
  simp [add_user_message]

/-- Over a clear-free suffix starting from a non-empty store, no further
system message is ever inserted and the store stays non-empty. -/
theorem runOps_clearFree_of_ne_nil :
    ∀ (ops : List StoreOp) (hist : List Message),
      (∀ op ∈ ops, op ≠ StoreOp.clearStore) → hist ≠ [] →
      (runOps ops hist).2 = 0 ∧ (runOps ops hist).1 ≠ [] := by
  intro ops
  induction ops with
  | nil => intro hist _ hne; exact ⟨rfl, hne⟩
  | cons op rest ih =>
    intro hist h hne
    have hop := h op (List.mem_cons_self _ _)
    have hcf : ∀ o ∈ rest, o ≠ StoreOp.clearStore :=
      fun o ho => h o (List.mem_cons_of_mem _ ho)
    cases op with
    | procReq chat ex n text =>
      have hz : (if hist.length = 0 then 1 else 0) = 0 := by
        simp [List.length_eq_zero, hne]
      have hres := ih ((process_user_request chat ex n text hist).2.1) hcf
        (process_user_request_ne_nil chat ex n text hist)
      simp only [runOps, applyOp]
      rw [hz, hres.1]
      exact ⟨rfl, hres.2⟩
    | clearStore => exact absurd rfl hop
    | addMsg m =>
      have hres := ih (hist ++ [m]) hcf (by simp)
      simp only [runOps, applyOp]
      rw [hres.1]
      exact ⟨rfl, hres.2⟩

/-- C6 (amended): `process_user_request` inserts the system message
exactly when the store is empty at the start of the call, and over any
sequence of store operations containing no `clear` the system message is
inserted at most once.  (An intervening `clear` re-enables the
insertion — see the counterexample.) -/
theorem c6_sys_insert_once_between_clears :
    (∀ (chat : Nat → Except String ChatResponse)
        (ex : ToolCall → Except String Json) (n : Nat) (text : String)
        (hist : List Message), hist ≠ [] →
        (applyOp (StoreOp.procReq chat ex n text) hist).2 = 0) ∧
    (∀ (chat : Nat → Except String ChatResponse)
        (ex : ToolCall → Except String Json) (n : Nat) (text : String),
        (applyOp (StoreOp.procReq chat ex n text) []).2 = 1) ∧
    ∀ (ops : List StoreOp) (hist : List Message),
      (∀ op ∈ ops, op ≠ StoreOp.clearStore) →
      (runOps ops hist).2 ≤ 1 := by
  refine ⟨?_, ?_, ?_⟩
  · intro chat ex n text hist hne
    simp [applyOp, List.length_eq_zero, hne]
  · intro chat ex n text
    rfl
  · intro ops hist hcf
    by_cases hne : hist = []
    · subst hne
      cases ops with
      | nil => simp [runOps]
      | cons op rest =>
        have hop := hcf op (List.mem_cons_self _ _)
        have hcf2 : ∀ o ∈ rest, o ≠ StoreOp.clearStore :=
          fun o ho => hcf o (List.mem_cons_of_mem _ ho)
        cases op with
        | procReq chat ex n text =>
          have hres := runOps_clearFree_of_ne_nil rest
            ((process_user_request chat ex n text []).2.1) hcf2
            (process_user_request_ne_nil chat ex n text [])
          simp only [runOps, applyOp]
          rw [hres.1]
          simp
        | clearStore => exact absurd rfl hop
        | addMsg m =>
          have hres := runOps_clearFree_of_ne_nil rest ([] ++ [m]) hcf2 (by simp)
          simp only [runOps, applyOp]
          rw [hres.1]
          simp
    · exact le_of_eq_of_le (runOps_clearFree_of_ne_nil ops hist hcf hne).1
        (by omega)

/-- The chat oracle of the C6 scenarios: the model answers at once with
no tool calls. -/
def chatNoToolsW : Nat → Except String ChatResponse :=
  fun _ => .ok { content := some "done" }

/-- Counterexample to C6 as stated: over the lifetime of one store, a
`process_request` / `clear` / `process_request` sequence inserts the
system message twice — `clear` empties the store, so the second call
sees an empty store and inserts again. -/
theorem c6_counterexample_clear_reinserts :
    (runOps [StoreOp.procReq chatNoToolsW exW 1 "a", StoreOp.clearStore,
        StoreOp.procReq chatNoToolsW exW 1 "b"] []).2 = 2 ∧
    ¬ ((runOps [StoreOp.procReq chatNoToolsW exW 1 "a", StoreOp.clearStore,
        StoreOp.procReq chatNoToolsW exW 1 "b"] []).2 ≤ 1) := by
  constructor
  · rfl
  · decide

/-- Witness for the amended C6 at a concrete clear-free sequence. -/
theorem c6_sys_insert_once_between_clears_witness :
    (∀ op ∈ [StoreOp.procReq chatNoToolsW exW 1 "a",
        StoreOp.procReq chatNoToolsW exW 1 "b"], op ≠ StoreOp.clearStore) ∧
    (runOps [StoreOp.procReq chatNoToolsW exW 1 "a",
        StoreOp.procReq chatNoToolsW exW 1 "b"] []).2 ≤ 1 :=
  have hcf : ∀ op ∈ [StoreOp.procReq chatNoToolsW exW 1 "a",
      StoreOp.procReq chatNoToolsW exW 1 "b"], op ≠ StoreOp.clearStore := by
    intro op hop
    rcases List.mem_cons.mp hop with h | h
    · subst h; intro hco; cases hco
    · rcases List.mem_cons.mp h with h | h
      · subst h; intro hco; cases hco
      · cases h
  ⟨hcf, c6_sys_insert_once_between_clears.2.2 _ [] hcf⟩

/-- A `connect_server` run in which the transport comes up but the
`initialize` RPC returns an error envelope. -/
def c3FailedConnect : Except String Unit × MCPState :=
  connect_server [] "fs" { transport := some "stdio", command := some ["srv"] }
    (.ok ()) (.ok { error := some { code := -32000, message := "boom" } })
    (.ok {})

/-- Counterexample to C3 as stated: when the handshake's `initialize`
returns an error envelope, `connect_server` does raise — but the server
has already been registered by `_connect_stdio`, and nothing removes it:
afterwards it is still in the connection set and a `call_tool` addressed
to it does not fail with the server-not-connected error. -/
theorem c3_counterexample_registered_after_failed_connect :
    c3FailedConnect.1 = .error "Ошибка инициализации MCP сервера fs: boom" ∧
    dictGet c3FailedConnect.2 "fs" = some { transport := "stdio" } ∧
    ∃ e, call_tool c3FailedConnect.2 (fun _ => .error "io down") "fs.ping" []
        = .error e ∧ e ≠ "Сервер fs не подключен" := by
  refine ⟨rfl, rfl, "io down", rfl, by decide⟩

/-- C3 (amended): when the transport is established but the `initialize`
RPC returns an error envelope, `connect_server` fails with the
initialization error, yet the server stays registered in the client's
connection set (registration happens at transport establishment, before
the handshake), with an empty tool set. -/
theorem c3_failed_handshake_leaves_server_registered
    (st : MCPState) (name : String) (cmd : List String) (err : MCPError)
    (respId : RpcId) (listSend : Except String MCPResponse) :
    connect_server st name { transport := some "stdio", command := some cmd }
        (.ok ()) (.ok { id := respId, error := some err }) listSend
      = (.error ("Ошибка инициализации MCP сервера " ++ name ++ ": "
            ++ err.message),
         dictSet st name { transport := "stdio" }) ∧
    dictGet (dictSet st name { transport := "stdio" }) name
      = some { transport := "stdio" } := by
  constructor
  · simp [connect_server, initConnection]
  · exact dictGet_dictSet_self st name _

/-- Counterexample to C4 as stated: when the result's `content` list is
empty, `call_tool` does NOT return that empty content list — the
`if result_content:` truthiness test sends the empty list to the final
`return response.result`, so the whole result object comes back. -/
theorem c4_counterexample_empty_content :
    formatCallResult [("content", Json.arr [])]
        = .ok (.obj [("content", Json.arr [])]) ∧
    Json.obj [("content", Json.arr [])] ≠ Json.arr [] :=
  ⟨rfl, fun h => Json.noConfusion h⟩

/-- C4 (amended): on a successful `tools/call`, the formatting returns
the JSON parse of the whitespace-stripped newline-join of the text
entries when it parses; the stripped join itself when it is non-empty
but not JSON; the raw content list when there are no text entries or the
join strips to the empty string; and the entire result object when the
content list is empty or missing. -/
theorem c4_call_result_formatting (result : List (String × Json)) :
    (dictGet result "content" = none →
        formatCallResult result = .ok (.obj result)) ∧
    (∀ rc, dictGet result "content" = some rc → pyTruthy rc = false →
        formatCallResult result = .ok (.obj result)) ∧
    (∀ items, dictGet result "content" = some (.arr items) → items ≠ [] →
      ∀ texts, textsOf items = .ok texts →
        (texts = [] → formatCallResult result = .ok (.arr items)) ∧
        (texts ≠ [] →
          (pyStrip (String.intercalate "\n" texts) = "" →
              formatCallResult result = .ok (.arr items)) ∧
          (∀ v, pyStrip (String.intercalate "\n" texts) ≠ "" →
              jsonLoads (pyStrip (String.intercalate "\n" texts)) = some v →
              formatCallResult result = .ok v) ∧
          (pyStrip (String.intercalate "\n" texts) ≠ "" →
              jsonLoads (pyStrip (String.intercalate "\n" texts)) = none →
              formatCallResult result
                = .ok (.str (pyStrip (String.intercalate "\n" texts)))))) := by
  refine ⟨?_, ?_, ?_⟩
  · intro h
    simp [formatCallResult, h, pyTruthy]
  · intro rc h htr
    simp [formatCallResult, h, htr]
  · intro items h hne texts htexts
    have htr : pyTruthy (Json.arr items) = true := by
      cases items with
      | nil => exact absurd rfl hne
      | cons a l => simp [pyTruthy]
    refine ⟨?_, ?_⟩
    · intro hT
      subst hT
      simp [formatCallResult, h, htr, htexts]
    · intro hTne
      have hTE : texts.isEmpty = false := by
        cases texts with
        | nil => exact absurd rfl hTne
        | cons a l => rfl
      refine ⟨?_, ?_, ?_⟩
      · intro hstrip
        simp [formatCallResult, h, htr, htexts, hTE, hstrip]
      · intro v hstrip hload
        simp [formatCallResult, h, htr, htexts, hTE, hstrip, hload]
      · intro hstrip hload
        simp [formatCallResult, h, htr, htexts, hTE, hstrip, hload]

/-- One text-tagged content entry carrying the text `42`. -/
def itemW : Json := Json.obj [("type", Json.str "text"), ("text", Json.str "42")]

/-- A `tools/call` result whose only content entry is `itemW`. -/
def resultW : List (String × Json) := [("content", Json.arr [itemW])]

/-- Witness for the amended C4: a text entry `42` is parsed as JSON and
comes back as the number 42. -/
theorem c4_call_result_formatting_witness :
    textsOf [itemW] = .ok ["42"] ∧
    formatCallResult resultW = .ok (Json.num 42) :=
  ⟨rfl,
    (((c4_call_result_formatting resultW).2.2 [itemW] rfl (by simp) ["42"] rfl).2
        (by simp)).2.1 (Json.num 42) (by decide) rfl⟩

/-! Round-trip of the stdio framing: `jsonLoads` inverts `renderChars`.
The development climbs from the leaves (whitespace, string escapes,
digits) to the mutual value/array/object induction. -/

theorem skipWs_cons_of_not_ws {c : Char} (l : List Char)
    (h : isWsChar c = false) : skipWs (c :: l) = c :: l := by
  simp [skipWs, h]

theorem parseVal_cons_ws {c : Char} (h : isWsChar c = true)
    (fuel : Nat) (l : List Char) : parseVal fuel (c :: l) = parseVal fuel l := by
  cases fuel with
  | zero => rfl
  | succ n => simp [parseVal, skipWs, h]

theorem parseMembers_cons_ws {c : Char} (h : isWsChar c = true)
    (fuel : Nat) (l : List Char) :
    parseMembers fuel (c :: l) = parseMembers fuel l := by
  cases fuel with
  | zero => rfl
  | succ n => simp [parseMembers, skipWs, h]

theorem parseElems_cons_ws {c : Char} (h : isWsChar c = true)
    (fuel : Nat) (l : List Char) :
    parseElems fuel (c :: l) = parseElems fuel l := by
  cases fuel with
  | zero => rfl
  | succ n => simp only [parseElems, parseVal_cons_ws h]

/-- A character below 0xD800 survives `Char.ofNat`/`toNat`. -/
theorem toNat_ofNat_small {m : Nat} (h : m < 55296) :
    (Char.ofNat m).toNat = m := by
  unfold Char.ofNat
  rw [dif_pos (Or.inl h)]
  rfl

/-- `hexVal` inverts `hexDigit` on one hex digit. -/
theorem hexVal_hexDigit : ∀ k, k < 16 → hexVal (hexDigit k) = some k := by
  decide

/-- `parseStrChars` inverts `escapeList`: the escaped characters followed
by the closing quote parse back to the original characters. -/
theorem parseStrChars_escapeList :
    ∀ (cs rest : List Char),
      parseStrChars (escapeList cs ++ '\"' :: rest) = some (cs, rest) := by
  intro cs
  induction cs with
  | nil =>
    intro rest
    rw [show escapeList [] = [] from rfl, List.nil_append, parseStrChars.eq_def]
    simp
  | cons c cs ih =>
    intro rest
    show parseStrChars (escapeChar c ++ escapeList cs ++ '\"' :: rest) = _
    by_cases h1 : c = '\"'
    · subst h1
      rw [show escapeChar '\"' = ['\\', '\"'] from rfl]
      simp only [List.cons_append, List.nil_append]
      rw [parseStrChars.eq_def]
      simp [ih]
    by_cases h2 : c = '\\'
    · subst h2
      rw [show escapeChar '\\' = ['\\', '\\'] from rfl]
      simp only [List.cons_append, List.nil_append]
      rw [parseStrChars.eq_def]
      simp [ih]
    by_cases h3 : c = '\n'
    · subst h3
      rw [show escapeChar '\n' = ['\\', 'n'] from rfl]
      simp only [List.cons_append, List.nil_append]
      rw [parseStrChars.eq_def]
      simp [ih]
    by_cases h4 : c = '\t'
    · subst h4
      rw [show escapeChar '\t' = ['\\', 't'] from rfl]
      simp only [List.cons_append, List.nil_append]
      rw [parseStrChars.eq_def]
      simp [ih]
    by_cases h5 : c = '\r'
    · subst h5
      rw [show escapeChar '\r' = ['\\', 'r'] from rfl]
      simp only [List.cons_append, List.nil_append]
      rw [parseStrChars.eq_def]
      simp [ih]
    by_cases h6 : c = Char.ofNat 8
    · subst h6
      rw [show escapeChar (Char.ofNat 8) = ['\\', 'b'] from rfl]
      simp only [List.cons_append, List.nil_append]
      rw [parseStrChars.eq_def]
      simp [ih]
    by_cases h7 : c = Char.ofNat 12
    · subst h7
      rw [show escapeChar (Char.ofNat 12) = ['\\', 'f'] from rfl]
      simp only [List.cons_append, List.nil_append]
      rw [parseStrChars.eq_def]
      simp [ih]
    by_cases h8 : c.toNat < 32
    · have hdivlt : c.toNat / 16 < 16 := by omega
      have hmodlt : c.toNat % 16 < 16 := Nat.mod_lt _ (by omega)
      have hesc : escapeChar c
          = ['\\', 'u', '0', '0', hexDigit (c.toNat / 16), hexDigit (c.toNat % 16)] := by
        simp [escapeChar, h1, h2, h3, h4, h5, h6, h7, h8]
      rw [hesc]
      simp only [List.cons_append, List.nil_append]
      rw [parseStrChars.eq_def]
      simp only [reduceIte, reduceCtorEq]
      rw [show hexVal '0' = some 0 from rfl]
      rw [hexVal_hexDigit _ hdivlt, hexVal_hexDigit _ hmodlt]
      simp only [ih, Option.map_some]
      have harith : 0 * 4096 + 0 * 256 + c.toNat / 16 * 16 + c.toNat % 16
          = c.toNat := by omega
      rw [harith, Char.ofNat_toNat]
      rfl
    · have hesc : escapeChar c = [c] := by
        simp [escapeChar, h1, h2, h3, h4, h5, h6, h7, h8]
      rw [hesc]
      simp only [List.cons_append, List.nil_append]
      rw [parseStrChars.eq_def]
      simp [h1, h2, h8, ih]

/-- Character-level reading of `isDigitChar`. -/
theorem isDigitChar_iff (c : Char) :
    isDigitChar c = true ↔ 48 ≤ c.toNat ∧ c.toNat ≤ 57 := by
  simp [isDigitChar, Char.le_def, UInt32.le_def, BitVec.le_def, Char.toNat,
    UInt32.toNat]

/-- Greedy digit reading stops at the first non-digit and folds the
digits onto the accumulator. -/
theorem parseDigits_append :
    ∀ (ds : List Char) (acc : Nat) (rest : List Char),
      (∀ c ∈ ds, isDigitChar c = true) →
      (∀ c, rest.head? = some c → isDigitChar c = false) →
      parseDigits (ds ++ rest) acc
        = (ds.foldl (fun a c => a * 10 + (c.toNat - 48)) acc, rest) := by
  intro ds
  induction ds with
  | nil =>
    intro acc rest _ hrest
    cases rest with
    | nil => rfl
    | cons c r =>
      have hc := hrest c rfl
      simp [parseDigits, hc]
  | cons d ds ih =>
    intro acc rest hds hrest
    have hd := hds d (List.mem_cons_self _ _)
    simp only [List.cons_append, parseDigits, hd, if_true, List.foldl_cons]
    exact ih _ rest (fun c hc => hds c (List.mem_cons_of_mem _ hc)) hrest

/-- `natDigs` produces at least one character, all of them digits. -/
theorem natDigs_shape : ∀ m : Nat,
    (∃ d ds, natDigs m = d :: ds) ∧ ∀ c ∈ natDigs m, isDigitChar c = true := by
  intro m
  induction m using Nat.strong_induction_on with
  | _ m ih =>
    by_cases h : m < 10
    · rw [natDigs.eq_def, dif_pos h]
      refine ⟨⟨_, [], rfl⟩, ?_⟩
      intro c hc
      rw [List.mem_singleton] at hc
      subst hc
      rw [isDigitChar_iff, toNat_ofNat_small (by omega)]
      omega
    · rw [natDigs.eq_def, dif_neg h]
      have hlt : m / 10 < m := Nat.div_lt_self (by omega) (by omega)
      rcases ih (m / 10) hlt with ⟨⟨d, ds, hcons⟩, hdig⟩
      constructor
      · exact ⟨d, ds ++ [Char.ofNat (48 + m % 10)], by rw [hcons]; simp⟩
      · intro c hc
        rcases List.mem_append.mp hc with hc | hc
        · exact hdig c hc
        · rw [List.mem_singleton] at hc
          subst hc
          have : m % 10 < 10 := Nat.mod_lt _ (by omega)
          rw [isDigitChar_iff, toNat_ofNat_small (by omega)]
          omega

/-- Folding the decimal digits of `m` onto `acc` computes
`acc * 10 ^ len + m`. -/
theorem natDigs_foldl : ∀ (m acc : Nat),
    (natDigs m).foldl (fun a c => a * 10 + (c.toNat - 48)) acc
      = acc * 10 ^ (natDigs m).length + m := by
  intro m
  induction m using Nat.strong_induction_on with
  | _ m ih =>
    intro acc
    by_cases h : m < 10
    · rw [natDigs.eq_def, dif_pos h]
      simp only [List.foldl_cons, List.foldl_nil, List.length_singleton, pow_one]
      rw [toNat_ofNat_small (by omega)]
      omega
    · rw [natDigs.eq_def, dif_neg h]
      have hlt : m / 10 < m := Nat.div_lt_self (by omega) (by omega)
      rw [List.foldl_append, ih (m / 10) hlt acc]
      simp only [List.foldl_cons, List.foldl_nil, List.length_append,
        List.length_singleton]
      rw [toNat_ofNat_small (by omega)]
      have hmod : m % 10 < 10 := Nat.mod_lt _ (by omega)
      have hsplit : m / 10 * 10 + m % 10 = m := by omega
      have hpow : 10 ^ ((natDigs (m / 10)).length + 1)
          = 10 ^ (natDigs (m / 10)).length * 10 := by rw [pow_succ]
      calc (acc * 10 ^ (natDigs (m / 10)).length + m / 10) * 10 + (48 + m % 10 - 48)
          = acc * (10 ^ (natDigs (m / 10)).length * 10)
            + (m / 10 * 10 + m % 10) := by ring_nf; omega
        _ = acc * 10 ^ ((natDigs (m / 10)).length + 1) + m := by
            rw [hsplit, hpow]

/-- A digit is none of the parser's structural characters. -/
theorem digit_ne_char {c : Char} (h : isDigitChar c = true) (d : Char)
    (hd : isDigitChar d = false) : c ≠ d := by
  intro hc
  subst hc
  rw [h] at hd
  cases hd

/-- A digit is not whitespace. -/
theorem digit_not_ws {c : Char} (h : isDigitChar c = true) :
    isWsChar c = false := by
  cases hw : isWsChar c
  · rfl
  · exfalso
    have hn := (isDigitChar_iff c).mp h
    simp [isWsChar] at hw
    rcases hw with ((h1 | h1) | h1) | h1 <;> (subst h1; exact absurd hn (by decide))

/-- `parseVal` reads back the decimal rendering of an integer, provided
the following character is not a digit. -/
theorem parseVal_num (n : Int) (fuel : Nat) (rest : List Char)
    (hrest : ∀ c, rest.head? = some c → isDigitChar c = false) :
    parseVal (fuel + 1) (intChars n ++ rest) = some (.num n, rest) := by
  by_cases hn : n < 0
  · obtain ⟨⟨d, ds, hds⟩, hdig⟩ := natDigs_shape (-n).toNat
    have hd : isDigitChar d = true := hdig d (by rw [hds]; exact List.mem_cons_self _ _)
    have hfold := natDigs_foldl (-n).toNat 0
    rw [hds] at hfold
    simp only [List.foldl_cons, Nat.zero_mul, Nat.zero_add] at hfold
    unfold intChars
    rw [if_pos hn, hds]
    simp only [List.cons_append]
    simp only [parseVal]
    rw [skipWs_cons_of_not_ws _ (by decide)]
    simp only [reduceIte, reduceCtorEq, hd, if_true]
    rw [parseDigits_append ds _ rest
      (fun c hc => hdig c (by rw [hds]; exact List.mem_cons_of_mem _ hc)) hrest]
    simp only [hfold]
    rw [Int.toNat_of_nonneg (by omega)]
    simp
  · obtain ⟨⟨d, ds, hds⟩, hdig⟩ := natDigs_shape n.toNat
    have hd : isDigitChar d = true := hdig d (by rw [hds]; exact List.mem_cons_self _ _)
    have hfold := natDigs_foldl n.toNat 0
    rw [hds] at hfold
    simp only [List.foldl_cons, Nat.zero_mul, Nat.zero_add] at hfold
    unfold intChars
    rw [if_neg hn, hds]
    simp only [List.cons_append]
    simp only [parseVal]
    rw [skipWs_cons_of_not_ws _ (digit_not_ws hd)]
    simp only [if_neg (digit_ne_char hd 'n' (by decide)),
      if_neg (digit_ne_char hd 't' (by decide)),
      if_neg (digit_ne_char hd 'f' (by decide)),
      if_neg (digit_ne_char hd '\"' (by decide)),
      if_neg (digit_ne_char hd '[' (by decide)),
      if_neg (digit_ne_char hd '\x7b' (by decide)),
      if_neg (digit_ne_char hd '-' (by decide)), hd, if_true]
    rw [parseDigits_append ds _ rest
      (fun c hc => hdig c (by rw [hds]; exact List.mem_cons_of_mem _ hc)) hrest]
    simp only [hfold]
    rw [Int.toNat_of_nonneg (by omega)]

/-- Every rendering starts with a structural character that is neither
whitespace nor a closing bracket/brace. -/
theorem renderChars_head (j : Json) :
    ∃ c cs, renderChars j = c :: cs ∧ isWsChar c = false
      ∧ c ≠ ']' ∧ c ≠ '\x7d' := by
  cases j with
  | null => exact ⟨'n', _, rfl, by decide, by decide, by decide⟩
  | bool b =>
    cases b
    · exact ⟨'f', _, rfl, by decide, by decide, by decide⟩
    · exact ⟨'t', _, rfl, by decide, by decide, by decide⟩
  | num n =>
    by_cases hn : n < 0
    · refine ⟨'-', natDigs (-n).toNat, ?_, by decide, by decide, by decide⟩
      show intChars n = _
      unfold intChars
      rw [if_pos hn]
    · obtain ⟨⟨d, ds, hds⟩, hdig⟩ := natDigs_shape n.toNat
      have hd := hdig d (by rw [hds]; exact List.mem_cons_self _ _)
      refine ⟨d, ds, ?_, digit_not_ws hd, digit_ne_char hd ']' (by decide),
        digit_ne_char hd '\x7d' (by decide)⟩
      show intChars n = _
      unfold intChars
      rw [if_neg hn, hds]
  | str s => exact ⟨'\"', _, rfl, by decide, by decide, by decide⟩
  | arr xs =>
    cases xs with
    | nil => exact ⟨'[', _, rfl, by decide, by decide, by decide⟩
    | cons x xs => exact ⟨'[', _, rfl, by decide, by decide, by decide⟩
  | obj kvs =>
    cases kvs with
    | nil => exact ⟨'\x7b', _, rfl, by decide, by decide, by decide⟩
    | cons kv kvs => exact ⟨'\x7b', _, rfl, by decide, by decide, by decide⟩

mutual

/-- Parser fuel needed for one value. -/
def sizeJ : Json → Nat
  | .null => 1
  | .bool _ => 1
  | .num _ => 1
  | .str _ => 1
  | .arr xs => sizeA xs + 1
  | .obj kvs => sizeO kvs + 1

/-- Parser fuel needed for the elements of an array. -/
def sizeA : List Json → Nat
  | [] => 0
  | x :: xs => sizeJ x + sizeA xs + 1

/-- Parser fuel needed for the members of an object. -/
def sizeO : List (String × Json) → Nat
  | [] => 0
  | kv :: kvs => sizeJ kv.2 + sizeO kvs + 1

end

/-- Every value needs at least one unit of fuel. -/
theorem sizeJ_pos (j : Json) : 1 ≤ sizeJ j := by
  cases j <;> simp [sizeJ]

/-- Completeness of the parser against the renderer, all three syntactic
classes at once, by induction on a bound on the size: with enough fuel,
a rendered value (array tail, object tail) parses back to itself, leaving
exactly the trailing input. -/
theorem parse_render_bound : ∀ N : Nat,
    (∀ j : Json, sizeJ j ≤ N →
      ∀ (fuel : Nat) (rest : List Char), sizeJ j ≤ fuel →
        (∀ c, rest.head? = some c → isDigitChar c = false) →
        parseVal fuel (renderChars j ++ rest) = some (j, rest)) ∧
    (∀ (x : Json) (xs : List Json), sizeA (x :: xs) ≤ N →
      ∀ (fuel : Nat) (rest : List Char), sizeA (x :: xs) ≤ fuel →
        parseElems fuel (renderChars x ++ (renderSepElems xs ++ ']' :: rest))
          = some (x :: xs, rest)) ∧
    (∀ (kv : String × Json) (kvs : List (String × Json)), sizeO (kv :: kvs) ≤ N →
      ∀ (fuel : Nat) (rest : List Char), sizeO (kv :: kvs) ≤ fuel →
        parseMembers fuel
            (renderMember kv ++ (renderSepMembers kvs ++ '\x7d' :: rest))
          = some (kv :: kvs, rest)) := by
  intro N
  induction N with
  | zero =>
    refine ⟨?_, ?_, ?_⟩
    · intro j hN
      exact absurd (le_trans (sizeJ_pos j) hN) (by omega)
    · intro x xs hN
      exact absurd hN (by simp [sizeA])
    · intro kv kvs hN
      exact absurd hN (by simp [sizeO])
  | succ N ihN =>
    refine ⟨?_, ?_, ?_⟩
    · -- values
      intro j hN fuel rest hfuel hrest
      obtain ⟨fuelm, rfl⟩ : ∃ m, fuel = m + 1 := by
        cases fuel with
        | zero => exact absurd (le_trans (sizeJ_pos j) hfuel) (by omega)
        | succ m => exact ⟨m, rfl⟩
      cases j with
      | null => simp [parseVal, skipWs, renderChars, isWsChar, nullChars, trueChars, falseChars]
      | bool b => cases b <;> simp [parseVal, skipWs, renderChars, isWsChar, nullChars, trueChars, falseChars]
      | num n => exact parseVal_num n fuelm rest hrest
      | str s =>
        show parseVal (fuelm + 1)
          (('\"' :: escapeList s.data ++ ['\"']) ++ rest) = _
        simp only [List.cons_append, List.append_assoc, List.nil_append]
        simp only [parseVal]
        rw [skipWs_cons_of_not_ws _ (by decide)]
        simp only [Char.reduceEq, reduceIte]
        rw [parseStrChars_escapeList]
      | arr xs =>
        cases xs with
        | nil => simp [parseVal, skipWs, renderChars, isWsChar, nullChars, trueChars, falseChars]
        | cons x xs =>
          have hsize : sizeA (x :: xs) ≤ N := by
            have : sizeJ (Json.arr (x :: xs)) = sizeA (x :: xs) + 1 := rfl
            omega
          have hfsize : sizeA (x :: xs) ≤ fuelm := by
            have : sizeJ (Json.arr (x :: xs)) = sizeA (x :: xs) + 1 := rfl
            omega
          have he := ihN.2.1 x xs hsize fuelm rest hfsize
          show parseVal (fuelm + 1)
            (('[' :: (renderChars x ++ renderSepElems xs) ++ [']']) ++ rest) = _
          simp only [List.cons_append, List.append_assoc, List.nil_append]
          simp only [parseVal]
          rw [skipWs_cons_of_not_ws _ (by decide)]
          simp only [Char.reduceEq, reduceIte]
          obtain ⟨c, cs, hx, hnws, hnbr, _⟩ := renderChars_head x
          rw [hx] at he ⊢
          simp only [List.cons_append] at he ⊢
          rw [skipWs_cons_of_not_ws _ hnws]
          split
          · next r2 heq => exact absurd (List.cons.injEq .. ▸ heq).1 hnbr
          · next => rw [he]
      | obj kvs =>
        cases kvs with
        | nil => simp [parseVal, skipWs, renderChars, isWsChar, nullChars, trueChars, falseChars]
        | cons kv kvs =>
          have hsize : sizeO (kv :: kvs) ≤ N := by
            have : sizeJ (Json.obj (kv :: kvs)) = sizeO (kv :: kvs) + 1 := rfl
            omega
          have hfsize : sizeO (kv :: kvs) ≤ fuelm := by
            have : sizeJ (Json.obj (kv :: kvs)) = sizeO (kv :: kvs) + 1 := rfl
            omega
          have he := ihN.2.2 kv kvs hsize fuelm rest hfsize
          show parseVal (fuelm + 1)
            (('\x7b' :: (renderMember kv ++ renderSepMembers kvs) ++ ['\x7d'])
              ++ rest) = _
          simp only [List.cons_append, List.append_assoc, List.nil_append]
          simp only [parseVal]
          rw [skipWs_cons_of_not_ws _ (by decide)]
          simp only [Char.reduceEq, reduceIte]
          have hmhead : ∃ c cs, renderMember kv
              = '\"' :: cs ∧ c = c := ⟨'\"', escapeList kv.1.data
                ++ ['\"', ':', ' '] ++ renderChars kv.2, by
                  cases kv; rfl, rfl⟩
          obtain ⟨c0, cs0, hm, -⟩ := hmhead
          rw [hm] at he ⊢
          simp only [List.cons_append] at he ⊢
          rw [skipWs_cons_of_not_ws _ (by decide)]
          simp only [he]
          split
          · next r2 heq => exact absurd (List.cons.injEq .. ▸ heq).1 (by decide)
          · rfl
    · -- array elements
      intro x xs hN fuel rest hfuel
      obtain ⟨fuelm, rfl⟩ : ∃ m, fuel = m + 1 := by
        cases fuel with
        | zero =>
          exfalso
          have : 1 ≤ sizeA (x :: xs) := by simp [sizeA]
          omega
        | succ m => exact ⟨m, rfl⟩
      have hsx : sizeJ x ≤ N := by
        have : sizeA (x :: xs) = sizeJ x + sizeA xs + 1 := rfl
        omega
      have hfx : sizeJ x ≤ fuelm := by
        have : sizeA (x :: xs) = sizeJ x + sizeA xs + 1 := rfl
        omega
      have hnd : ∀ c, (renderSepElems xs ++ ']' :: rest).head? = some c →
          isDigitChar c = false := by
        cases xs with
        | nil =>
          intro c hc
          simp [renderSepElems] at hc
          subst hc
          decide
        | cons y ys =>
          intro c hc
          simp [renderSepElems] at hc
          subst hc
          decide
      have hv := ihN.1 x hsx fuelm (renderSepElems xs ++ ']' :: rest) hfx hnd
      simp only [parseElems]
      rw [hv]
      cases xs with
      | nil =>
        simp only [renderSepElems, List.nil_append]
        rw [skipWs_cons_of_not_ws _ (by decide)]
        rfl
      | cons y ys =>
        have hsy : sizeA (y :: ys) ≤ N := by
          have : sizeA (x :: y :: ys) = sizeJ x + sizeA (y :: ys) + 1 := rfl
          have hx1 := sizeJ_pos x
          omega
        have hfy : sizeA (y :: ys) ≤ fuelm := by
          have : sizeA (x :: y :: ys) = sizeJ x + sizeA (y :: ys) + 1 := rfl
          have hx1 := sizeJ_pos x
          omega
        show (match skipWs (renderSepElems (y :: ys) ++ ']' :: rest) with
          | ',' :: r2 =>
            match parseElems fuelm r2 with
            | some (vs, r3) => some (x :: vs, r3)
            | none => none
          | ']' :: r2 => some ([x], r2)
          | _ => none) = _
        simp only [renderSepElems, List.cons_append, List.append_assoc]
        rw [skipWs_cons_of_not_ws _ (by decide)]
        simp only [parseElems_cons_ws (show isWsChar ' ' = true from by decide),
          ihN.2.1 y ys hsy fuelm rest hfy]
    · -- object members
      intro kv kvs hN fuel rest hfuel
      obtain ⟨k, v⟩ := kv
      obtain ⟨fuelm, rfl⟩ : ∃ m, fuel = m + 1 := by
        cases fuel with
        | zero =>
          exfalso
          have : 1 ≤ sizeO ((k, v) :: kvs) := by simp [sizeO]
          omega
        | succ m => exact ⟨m, rfl⟩
      have hsv : sizeJ v ≤ N := by
        have : sizeO ((k, v) :: kvs) = sizeJ v + sizeO kvs + 1 := rfl
        omega
      have hfv : sizeJ v ≤ fuelm := by
        have : sizeO ((k, v) :: kvs) = sizeJ v + sizeO kvs + 1 := rfl
        omega
      have hnd : ∀ c, (renderSepMembers kvs ++ '\x7d' :: rest).head? = some c →
          isDigitChar c = false := by
        cases kvs with
        | nil =>
          intro c hc
          simp [renderSepMembers] at hc
          subst hc
          decide
        | cons kv2 kvs2 =>
          intro c hc
          simp [renderSepMembers] at hc
          subst hc
          decide
      have hv := ihN.1 v hsv fuelm (renderSepMembers kvs ++ '\x7d' :: rest) hfv hnd
      show parseMembers (fuelm + 1)
        (('\"' :: escapeList k.data ++ ['\"', ':', ' '] ++ renderChars v)
          ++ (renderSepMembers kvs ++ '\x7d' :: rest)) = _
      simp only [List.cons_append, List.append_assoc, List.nil_append]
      simp only [parseMembers]
      rw [skipWs_cons_of_not_ws _ (by decide)]
      simp only [parseStrChars_escapeList,
        show ∀ l : List Char, skipWs (':' :: l) = ':' :: l from
          fun l => skipWs_cons_of_not_ws l (by decide)]
      simp only [parseVal_cons_ws (show isWsChar ' ' = true from by decide), hv]
      cases kvs with
      | nil =>
        simp only [renderSepMembers, List.nil_append,
          show ∀ l : List Char, skipWs ('\x7d' :: l) = '\x7d' :: l from
            fun l => skipWs_cons_of_not_ws l (by decide)]
      | cons kv2 kvs2 =>
        have hs2 : sizeO (kv2 :: kvs2) ≤ N := by
          have : sizeO ((k, v) :: kv2 :: kvs2)
              = sizeJ v + sizeO (kv2 :: kvs2) + 1 := rfl
          have hv1 := sizeJ_pos v
          omega
        have hf2 : sizeO (kv2 :: kvs2) ≤ fuelm := by
          have : sizeO ((k, v) :: kv2 :: kvs2)
              = sizeJ v + sizeO (kv2 :: kvs2) + 1 := rfl
          have hv1 := sizeJ_pos v
          omega
        simp only [renderSepMembers, List.cons_append, List.append_assoc,
          show ∀ l : List Char, skipWs (',' :: l) = ',' :: l from
            fun l => skipWs_cons_of_not_ws l (by decide)]
        simp only [parseMembers_cons_ws (show isWsChar ' ' = true from by decide),
          ihN.2.2 kv2 kvs2 hs2 fuelm rest hf2]

/-- The fuel a value needs is at most the length of its rendering. -/
theorem size_le_render_length : ∀ N : Nat,
    (∀ j, sizeJ j ≤ N → sizeJ j ≤ (renderChars j).length) ∧
    (∀ xs, sizeA xs ≤ N → sizeA xs ≤ (renderSepElems xs).length) ∧
    (∀ kvs, sizeO kvs ≤ N → sizeO kvs ≤ (renderSepMembers kvs).length) := by
  intro N
  induction N with
  | zero =>
    refine ⟨?_, ?_, ?_⟩
    · intro j h
      exact absurd (le_trans (sizeJ_pos j) h) (by omega)
    · intro xs h
      cases xs with
      | nil => simp [sizeA]
      | cons x xs => exact absurd h (by simp [sizeA])
    · intro kvs h
      cases kvs with
      | nil => simp [sizeO]
      | cons kv kvs => exact absurd h (by simp [sizeO])
  | succ N ihN =>
    refine ⟨?_, ?_, ?_⟩
    · intro j h
      cases j with
      | null => simp [sizeJ, renderChars, nullChars]
      | bool b => cases b <;> simp [sizeJ, renderChars, trueChars, falseChars]
      | num n =>
        show sizeJ (Json.num n) ≤ (intChars n).length
        rw [show sizeJ (Json.num n) = 1 from rfl]
        unfold intChars
        by_cases hn : n < 0
        · rw [if_pos hn]
          simp
        · rw [if_neg hn]
          obtain ⟨⟨d, ds, hds⟩, -⟩ := natDigs_shape n.toNat
          rw [hds]
          simp
      | str s => simp [sizeJ, renderChars]
      | arr xs =>
        cases xs with
        | nil => simp [sizeJ, sizeA, renderChars]
        | cons x xs =>
          have hx : sizeJ x ≤ N := by
            have h1 : sizeJ (Json.arr (x :: xs))
                = sizeJ x + sizeA xs + 2 := rfl
            omega
          have hxs : sizeA xs ≤ N := by
            have h1 : sizeJ (Json.arr (x :: xs))
                = sizeJ x + sizeA xs + 2 := rfl
            have h2 := sizeJ_pos x
            omega
          have ih1 := ihN.1 x hx
          have ih2 := ihN.2.1 xs hxs
          have h1 : sizeJ (Json.arr (x :: xs)) = sizeJ x + sizeA xs + 2 := rfl
          have h2 : (renderChars (Json.arr (x :: xs))).length
              = (renderChars x).length + (renderSepElems xs).length + 2 := by
            show ('[' :: (renderChars x ++ renderSepElems xs) ++ [']']).length = _
            simp
            try omega
          omega
      | obj kvs =>
        cases kvs with
        | nil => simp [sizeJ, sizeO, renderChars]
        | cons kv kvs =>
          obtain ⟨k, v⟩ := kv
          have hv : sizeJ v ≤ N := by
            have h1 : sizeJ (Json.obj ((k, v) :: kvs))
                = sizeJ v + sizeO kvs + 2 := rfl
            omega
          have hkvs : sizeO kvs ≤ N := by
            have h1 : sizeJ (Json.obj ((k, v) :: kvs))
                = sizeJ v + sizeO kvs + 2 := rfl
            have h2 := sizeJ_pos v
            omega
          have ih1 := ihN.1 v hv
          have ih2 := ihN.2.2 kvs hkvs
          have h1 : sizeJ (Json.obj ((k, v) :: kvs))
              = sizeJ v + sizeO kvs + 2 := rfl
          have h2 : (renderChars (Json.obj ((k, v) :: kvs))).length
              = (escapeList k.data).length + (renderChars v).length
                + (renderSepMembers kvs).length + 6 := by
            show ('\x7b' :: (renderMember (k, v) ++ renderSepMembers kvs)
              ++ ['\x7d']).length = _
            show ('\x7b' :: (('\"' :: escapeList k.data
              ++ ['\"', ':', ' '] ++ renderChars v) ++ renderSepMembers kvs)
              ++ ['\x7d']).length = _
            simp
            try omega
          omega
    · intro xs h
      cases xs with
      | nil => simp [sizeA]
      | cons x xs =>
        have hx : sizeJ x ≤ N := by
          have h1 : sizeA (x :: xs) = sizeJ x + sizeA xs + 1 := rfl
          omega
        have hxs : sizeA xs ≤ N := by
          have h1 : sizeA (x :: xs) = sizeJ x + sizeA xs + 1 := rfl
          have h2 := sizeJ_pos x
          omega
        have ih1 := ihN.1 x hx
        have ih2 := ihN.2.1 xs hxs
        have h1 : sizeA (x :: xs) = sizeJ x + sizeA xs + 1 := rfl
        have h2 : (renderSepElems (x :: xs)).length
            = (renderChars x).length + (renderSepElems xs).length + 2 := by
          show (',' :: ' ' :: renderChars x ++ renderSepElems xs).length = _
          simp
          try omega
        omega
    · intro kvs h
      cases kvs with
      | nil => simp [sizeO]
      | cons kv kvs =>
        obtain ⟨k, v⟩ := kv
        have hv : sizeJ v ≤ N := by
          have h1 : sizeO ((k, v) :: kvs) = sizeJ v + sizeO kvs + 1 := rfl
          omega
        have hkvs : sizeO kvs ≤ N := by
          have h1 : sizeO ((k, v) :: kvs) = sizeJ v + sizeO kvs + 1 := rfl
          have h2 := sizeJ_pos v
          omega
        have ih1 := ihN.1 v hv
        have ih2 := ihN.2.2 kvs hkvs
        have h1 : sizeO ((k, v) :: kvs) = sizeJ v + sizeO kvs + 1 := rfl
        have h2 : (renderSepMembers ((k, v) :: kvs)).length
            = (escapeList k.data).length + (renderChars v).length
              + (renderSepMembers kvs).length + 6 := by
          show (',' :: ' ' :: renderMember (k, v)
            ++ renderSepMembers kvs).length = _
          show (',' :: ' ' :: ('\"' :: escapeList k.data
            ++ ['\"', ':', ' '] ++ renderChars v)
            ++ renderSepMembers kvs).length = _
          simp
          try omega
        omega

/-- `jsonLoads` inverts `dumps` on any value followed by the newline the
stdio framing appends. -/
theorem jsonLoads_dumps_newline (j : Json) :
    jsonLoads ⟨renderChars j ++ ['\n']⟩ = some j := by
  have hsize := (size_le_render_length (sizeJ j)).1 j (le_refl _)
  have hfuel : sizeJ j ≤ (renderChars j ++ ['\n']).length + 1 := by
    simp only [List.length_append, List.length_singleton]
    omega
  have hmain := (parse_render_bound (sizeJ j)).1 j (le_refl _)
    ((renderChars j ++ ['\n']).length + 1) ['\n'] hfuel
    (by intro c hc; simp at hc; subst hc; decide)
  unfold jsonLoads
  simp only [show (⟨renderChars j ++ ['\n']⟩ : String).data
    = renderChars j ++ ['\n'] from rfl]
  rw [hmain]
  simp [skipWs, isWsChar]

/-- C8: serializing an RPC request to its wire line and parsing that line
back as JSON reproduces the envelope object, and in particular an equal
`{id, method, params}` triple. -/
theorem c8_serialize_request_roundtrip (r : MCPRequest) :
    jsonLoads (serialize_request r) = some (requestDict r) ∧
    (jsonLoads (serialize_request r)).bind readRequestTriple
      = some (r.id, r.method, r.params) := by
  have hdata : serialize_request r = ⟨renderChars (requestDict r) ++ ['\n']⟩ := by
    show dumps (requestDict r) ++ "\n" = _
    rfl
  rw [hdata]
  have h1 := jsonLoads_dumps_newline (requestDict r)
  refine ⟨h1, ?_⟩
  rw [h1]
  show readRequestTriple (requestDict r) = _
  cases hid : r.id <;> cases hp : r.params <;>
    simp [requestDict, readRequestTriple, rpcIdJson, dictGet, hid, hp]

/-- A concrete `tools/call` request for the C8 witness. -/
def reqW : MCPRequest :=
  { id := .num 7, method := "tools/call", params := some [("name", Json.str "ping")] }

/-- Witness for C8 at a concrete `tools/call` request. -/
theorem c8_serialize_request_roundtrip_witness :
    (jsonLoads (serialize_request reqW)).bind readRequestTriple
      = some (.num 7, "tools/call", some [("name", Json.str "ping")]) :=
  (c8_serialize_request_roundtrip reqW).2
